import Mathlib

/-!
Shallow embedding of `cranelift-wasm/src/func_translator.rs` (stand-alone
WebAssembly to Cranelift IR translator driver).

The file models:
* the Cranelift IR builder surface the driver uses (`FunctionBuilder` of
  cranelift-frontend, which is not part of this repository's sources; its
  operations are modelled from the spec's description of the builder
  capabilities: block creation, block parameters, sealing, instruction
  emission, variable declaration/definition, value labels, source
  locations);
* the driver itself: `translate_from_reader`, `declare_wasm_parameters`,
  `parse_local_decls`, `declare_locals`, `parse_function_body`,
  translated line by line from the source;
* the external collaborators (`TranslationState`, the operator translator
  `translate_operator`, the `FuncEnvironment` hooks), which live in files
  outside the provided sources and are modelled from the spec.
-/

/-- Cranelift IR value types relevant to WebAssembly locals
(`ir::types::{I32,I64,F32,F64}`). -/
inductive IrType
  | I32
  | I64
  | F32
  | F64
deriving DecidableEq, Repr

/-- `ir::ArgumentPurpose`: a signature parameter is either a normal
WebAssembly parameter, the special `vmctx` context pointer, or some other
special purpose (collapsed into one constructor). -/
inductive ArgumentPurpose
  | Normal
  | VMContext
  | OtherSpecial
deriving DecidableEq, Repr

/-- `ir::AbiParam`: a value type together with its purpose. -/
structure AbiParam where
  value_type : IrType
  purpose : ArgumentPurpose
deriving DecidableEq, Repr

/-- `ir::Signature`: parameter and return parameter lists. -/
structure Signature where
  params : List AbiParam
  returns : List AbiParam
deriving DecidableEq, Repr

/-- `wasmparser::Type` as used by `declare_locals`: the four numeric
types have zero representations; the remaining constructors stand for
types with no valid zero constant in this IR (reference/vector types). -/
inductive WasmType
  | I32
  | I64
  | F32
  | F64
  | V128
  | AnyRef
deriving DecidableEq, Repr

/-- `environ::ReturnMode` (modelled from the spec: the environ module is
not under the provided sources): selects the shape of the synthesized
return instruction. -/
inductive ReturnMode
  | NormalReturns
  | FallthroughReturn
deriving DecidableEq, Repr

/-- `environ::WasmError` (modelled from the spec's error taxonomy:
`MalformedInput` carries the byte offset of the failed decode;
`Unsupported` is returned by `declare_locals` with the message
"unsupported local type"). -/
inductive WasmError
  | MalformedInput (offset : Nat)
  | Unsupported (msg : String)
deriving DecidableEq, Repr

/-- Modelled from the spec: the subset of bytecode operators whose
structural effect the driver depends on.  `block`/`loop_`/`if_` push a
control frame, `end_` pops one, `br` transfers control to a frame's
branch destination, and the value operators only touch the value stack. -/
inductive Op
  | block
  | loop_
  | if_
  | end_
  | br (depth : Nat)
  | i32const (imm : Int)
  | localget (idx : Nat)
  | localset (idx : Nat)
  | i32add
  | nop
deriving DecidableEq, Repr

/-- Observable events recorded during translation: source-location
updates and the per-operator callback order (environment `before` hook,
operator translator, environment `after` hook).  The hooks themselves are
external instrumentation (modelled from the spec), so only their
invocation is recorded. -/
inductive Event
  | evSrcloc (pos : Nat)
  | evBefore (op : Op)
  | evTranslate (op : Op)
  | evAfter (op : Op)
deriving DecidableEq, Repr

/-- Instruction payloads emitted by the driver and by the modelled
operator translator.  SSA values are identified by natural numbers. -/
inductive InstData
  | iconst (ty : IrType) (imm : Int)
  | f32const (bits : Nat)
  | f64const (bits : Nat)
  | iadd (a b : Nat)
  | jump (dest : Nat)
  | brz (dest : Nat)
  | ret (args : List Nat)
  | fallthrough_return (args : List Nat)
deriving DecidableEq, Repr

/-- One emitted instruction: payload, the source location current at
emission time, and its result value id (`none` for instructions that
produce no value). -/
structure Inst where
  data : InstData
  srcloc : Nat
  result : Option Nat
deriving DecidableEq, Repr

/-- One extended basic block (`Ebb`) of the function under construction:
its block parameters (value id, type), its instructions in append order,
whether it has been sealed, and its known predecessor blocks. -/
structure EbbData where
  params : List (Nat × IrType)
  insts : List Inst
  sealed : Bool
  preds : List Nat
deriving DecidableEq, Repr

instance : Inhabited EbbData := ⟨⟨[], [], false, []⟩⟩

/-- Modelled from the spec: the `FunctionBuilder` of cranelift-frontend
(not under the provided sources).  It owns the function being built
(blocks, instructions), the active insertion point `cur`, the current
source location, a fresh-value counter, and the recorded variable
declarations, variable definitions, and value labels, plus the
observational event trace. -/
structure Builder where
  sig : Signature
  blocks : List EbbData
  cur : Nat
  srcloc : Nat
  next_value : Nat
  vars : List (Nat × IrType)
  defs : List (Nat × Nat)
  val_labels : List (Nat × Nat)
  trace : List Event
deriving DecidableEq, Repr

/-- Replace the block at index `i` by `f` applied to it (out-of-range
indices leave the list unchanged). -/
def updateBlock : List EbbData → Nat → (EbbData → EbbData) → List EbbData
  | [], _, _ => []
  | e :: rest, 0, f => f e :: rest
  | e :: rest, i + 1, f => e :: updateBlock rest i f

/-- `FunctionBuilder::new` on an empty function: fresh builder state for
the given signature. -/
def Builder.new (sig : Signature) : Builder :=
  ⟨sig, [], 0, 0, 0, [], [], [], []⟩

/-- `builder.set_srcloc`: set the current source location (recorded in
the trace). -/
def Builder.set_srcloc (b : Builder) (p : Nat) : Builder :=
  { b with srcloc := p, trace := b.trace ++ [Event.evSrcloc p] }

/-- Record a hook/translator invocation in the trace. -/
def Builder.traceEv (b : Builder) (e : Event) : Builder :=
  { b with trace := b.trace ++ [e] }

/-- `builder.create_ebb`: append a fresh empty block; its id is the old
block count. -/
def Builder.create_ebb (b : Builder) : Builder × Nat :=
  ({ b with blocks := b.blocks ++ [default] }, b.blocks.length)

/-- Append one block parameter of each given type to block `blk`,
allocating fresh value ids. -/
def Builder.appendParams (b : Builder) (blk : Nat) : List IrType → Builder
  | [] => b
  | t :: ts =>
    let v := b.next_value
    let b := { b with
      blocks := updateBlock b.blocks blk (fun e => { e with params := e.params ++ [(v, t)] }),
      next_value := v + 1 }
    b.appendParams blk ts

/-- `builder.append_ebb_params_for_function_params`: one block parameter
per signature parameter, in signature order. -/
def Builder.append_ebb_params_for_function_params (b : Builder) (blk : Nat) : Builder :=
  b.appendParams blk (b.sig.params.map (fun p => p.value_type))

/-- `builder.append_ebb_params_for_function_returns`: one block parameter
per signature return value, in signature order. -/
def Builder.append_ebb_params_for_function_returns (b : Builder) (blk : Nat) : Builder :=
  b.appendParams blk (b.sig.returns.map (fun p => p.value_type))

/-- `builder.switch_to_block`: change the active insertion point. -/
def Builder.switch_to_block (b : Builder) (blk : Nat) : Builder :=
  { b with cur := blk }

/-- `builder.seal_block`: declare all predecessors of `blk` known. -/
def Builder.seal_block (b : Builder) (blk : Nat) : Builder :=
  { b with blocks := updateBlock b.blocks blk (fun e => { e with sealed := true }) }

/-- Append an instruction (at the current source location) to the active
insertion point and allocate its result value id. -/
def Builder.emit (b : Builder) (d : InstData) : Builder × Nat :=
  ({ b with
      blocks := updateBlock b.blocks b.cur
        (fun e => { e with insts := e.insts ++ [⟨d, b.srcloc, some b.next_value⟩] }),
      next_value := b.next_value + 1 },
    b.next_value)

/-- Append an instruction that produces no result value. -/
def Builder.emitNoRes (b : Builder) (d : InstData) : Builder :=
  { b with
      blocks := updateBlock b.blocks b.cur
        (fun e => { e with insts := e.insts ++ [⟨d, b.srcloc, none⟩] }) }

/-- Emit an unconditional jump to `dest`, recording the current block as
a predecessor of `dest`. -/
def Builder.emitJump (b : Builder) (dest : Nat) : Builder :=
  let b := b.emitNoRes (InstData.jump dest)
  { b with blocks := updateBlock b.blocks dest (fun e => { e with preds := e.preds ++ [b.cur] }) }

/-- Emit a conditional branch to `dest`, recording the current block as a
predecessor of `dest`. -/
def Builder.emitBrz (b : Builder) (dest : Nat) : Builder :=
  let b := b.emitNoRes (InstData.brz dest)
  { b with blocks := updateBlock b.blocks dest (fun e => { e with preds := e.preds ++ [b.cur] }) }

/-- `builder.declare_var`: record the type of local variable `v`. -/
def Builder.declare_var (b : Builder) (v : Nat) (ty : IrType) : Builder :=
  { b with vars := b.vars ++ [(v, ty)] }

/-- `builder.def_var`: bind local variable `v` to SSA value `val`. -/
def Builder.def_var (b : Builder) (v : Nat) (val : Nat) : Builder :=
  { b with defs := b.defs ++ [(v, val)] }

/-- `builder.set_val_label`: attach debug value label `lbl` to `val`. -/
def Builder.set_val_label (b : Builder) (val : Nat) (lbl : Nat) : Builder :=
  { b with val_labels := b.val_labels ++ [(val, lbl)] }

/-- Current binding of a local variable: the most recent `def_var` for
it (the defs list is append-ordered, so search from the right). -/
def lookupDef (defs : List (Nat × Nat)) (v : Nat) : Option Nat :=
  (defs.reverse.find? (fun p => p.1 == v)).map (fun p => p.2)

/-- The i-th block parameter value of block `blk`
(`builder.ebb_params(blk)[i]`). -/
def Builder.ebbParamValue (b : Builder) (blk : Nat) (i : Nat) : Nat :=
  ((b.blocks.getD blk default).params.getD i (0, IrType.I32)).1

/-- `builder.is_pristine`: no instruction has been inserted in the
current block yet. -/
def Builder.is_pristine (b : Builder) : Bool :=
  (b.blocks.getD b.cur default).insts.isEmpty

/-- `builder.is_unreachable`: the current block is not the entry block,
is sealed, and has no known predecessors (modelled from the spec's
description of cranelift-frontend, which is not under the provided
sources; block 0 is the entry block). -/
def Builder.is_unreachable (b : Builder) : Bool :=
  b.cur != 0 && (b.blocks.getD b.cur default).sealed
    && (b.blocks.getD b.cur default).preds.isEmpty

/-- `translation_utils::get_vmctx_value_label()` (not under the provided
sources): the distinguished debug value label for the `vmctx` parameter. -/
def get_vmctx_value_label : Nat := 4294967294

/-- A control frame (modelled from the spec: the concrete frame variants
live in the operator translator, outside the provided sources).  Each
frame knows the block a branch to it targets (`branch_dest`: the loop
header for loops, the merge block otherwise) and the block where control
continues after its matching `end` (`dest`, the merge/exit block). -/
structure Frame where
  branch_dest : Nat
  dest : Nat
deriving DecidableEq, Repr

/-- `state::TranslationState` (modelled from the spec: `state.rs` is not
under the provided sources): the shadow value stack, the control-frame
stack (innermost frame first), and the reachability flag. -/
structure TranslationState where
  stack : List Nat
  control_stack : List Frame
  reachable : Bool
deriving DecidableEq, Repr

/-- `TranslationState::new` (modelled from the spec). -/
def TranslationState.new : TranslationState :=
  ⟨[], [], true⟩

/-- Models `TranslationState::initialize` (from the spec: fully resets
the state on every call — empty value stack, a single control frame for
the whole function whose merge point is the exit block, reachability
true). -/
def TranslationState.initState (_sig : Signature) (exit_block : Nat) : TranslationState :=
  ⟨[], [⟨exit_block, exit_block⟩], true⟩

/-- Modelled from the spec: `code_translator::translate_operator` is not
under the provided sources.  Structural operators push/pop control
frames and create/seal/connect blocks through the builder; value
operators manipulate the shadow value stack; when the current program
point is unreachable only the structural bookkeeping happens.  The
invocation itself is recorded in the trace. -/
def translate_operator (op : Op) (st : TranslationState) (b : Builder) :
    TranslationState × Builder :=
  let b := b.traceEv (Event.evTranslate op)
  match op with
  | Op.block =>
    let m := (b.create_ebb).2
    let b := (b.create_ebb).1
    ({ st with control_stack := ⟨m, m⟩ :: st.control_stack }, b)
  | Op.loop_ =>
    let h := (b.create_ebb).2
    let b := (b.create_ebb).1
    let m := (b.create_ebb).2
    let b := (b.create_ebb).1
    let b := if st.reachable then b.emitJump h else b
    let b := b.switch_to_block h
    ({ st with control_stack := ⟨h, m⟩ :: st.control_stack }, b)
  | Op.if_ =>
    let st := if st.reachable then { st with stack := st.stack.drop 1 } else st
    let m := (b.create_ebb).2
    let b := (b.create_ebb).1
    let t := (b.create_ebb).2
    let b := (b.create_ebb).1
    let b := if st.reachable then (b.emitBrz m).emitJump t else b
    let b := (b.switch_to_block t).seal_block t
    ({ st with control_stack := ⟨m, m⟩ :: st.control_stack }, b)
  | Op.end_ =>
    match st.control_stack with
    | [] => (st, b)
    | f :: rest =>
      let b := if st.reachable then b.emitJump f.dest else b
      let b := (b.switch_to_block f.dest).seal_block f.dest
      ({ st with
          control_stack := rest,
          reachable := !(b.blocks.getD f.dest default).preds.isEmpty }, b)
  | Op.br depth =>
    if st.reachable then
      match st.control_stack.get? depth with
      | some f => ({ st with reachable := false }, b.emitJump f.branch_dest)
      | none => ({ st with reachable := false }, b)
    else (st, b)
  | Op.i32const imm =>
    if st.reachable then
      let v := (b.emit (InstData.iconst IrType.I32 imm)).2
      let b := (b.emit (InstData.iconst IrType.I32 imm)).1
      ({ st with stack := v :: st.stack }, b)
    else (st, b)
  | Op.localget i =>
    if st.reachable then
      ({ st with stack := (lookupDef b.defs i).getD 0 :: st.stack }, b)
    else (st, b)
  | Op.localset i =>
    if st.reachable then
      match st.stack with
      | v :: s => ({ st with stack := s }, b.def_var i v)
      | [] => (st, b)
    else (st, b)
  | Op.i32add =>
    if st.reachable then
      match st.stack with
      | a :: a2 :: s =>
        let v := (b.emit (InstData.iadd a2 a)).2
        let b := (b.emit (InstData.iadd a2 a)).1
        ({ st with stack := v :: s }, b)
      | _ => (st, b)
    else (st, b)
  | Op.nop => (st, b)

/-- One item of the operator stream as seen through
`reader.read_operator`: either a successfully decoded operator or a
decode failure at that position. -/
inductive ReadItem
  | ok (op : Op)
  | bad
deriving DecidableEq, Repr

/-- One iteration of the decode-dispatch loop body after a successful
decode (source lines 208–212): record the source location, invoke the
environment's before-hook, the operator translator, and the after-hook. -/
def loopIter (op : Op) (p : Nat) (st : TranslationState) (b : Builder) :
    TranslationState × Builder :=
  let b := b.set_srcloc p
  let b := b.traceEv (Event.evBefore op)
  let (st, b) := translate_operator op st b
  let b := b.traceEv (Event.evAfter op)
  (st, b)

/-- Result of the decode-dispatch loop: outcome, final state, final
builder, and the unconsumed reader (items and position). -/
structure LoopOut where
  res : Except WasmError Unit
  st : TranslationState
  b : Builder
  items : List ReadItem
  pos : Nat
deriving Repr

/-- The decode-dispatch loop (source lines 207–213): keep going until
the control-frame stack is empty; each iteration sets the source
location, decodes one operator (a failure aborts with `MalformedInput`
at the current byte offset), and runs the hooks and the operator
translator. -/
def runLoop : List ReadItem → Nat → TranslationState → Builder → LoopOut
  | items, p, st, b =>
    if st.control_stack = [] then ⟨Except.ok (), st, b, items, p⟩
    else
      match items with
      | [] => ⟨Except.error (WasmError.MalformedInput p), st, b.set_srcloc p, [], p⟩
      | ReadItem.bad :: rest =>
        ⟨Except.error (WasmError.MalformedInput p), st, b.set_srcloc p,
          ReadItem.bad :: rest, p⟩
      | ReadItem.ok op :: rest =>
        let sb := loopIter op p st b
        runLoop rest (p + 1) sb.1 sb.2

/-- The finalizer part of `parse_function_body` (source lines 215–232):
if the final program point is reachable and the exit block is not
unreachable, synthesize the return instruction chosen by the
environment's return mode from the values remaining on the stack; then
clear the value stack unconditionally. -/
def finalizeBody (mode : ReturnMode) (st : TranslationState) (b : Builder) :
    TranslationState × Builder :=
  let b :=
    if st.reachable then
      if !b.is_unreachable then
        match mode with
        | ReturnMode.NormalReturns => b.emitNoRes (InstData.ret st.stack)
        | ReturnMode.FallthroughReturn => b.emitNoRes (InstData.fallthrough_return st.stack)
      else b
    else b
  ({ st with stack := [] }, b)

/-- `parse_function_body` (source lines 197–237): run the
decode-dispatch loop, then (on success) the finalizer. -/
def parse_function_body (items : List ReadItem) (p : Nat) (st : TranslationState)
    (b : Builder) (mode : ReturnMode) : LoopOut :=
  let o := runLoop items p st b
  match o.res with
  | Except.error e => ⟨Except.error e, o.st, o.b, o.items, o.pos⟩
  | Except.ok _ =>
    let sb := finalizeBody mode o.st o.b
    ⟨Except.ok (), sb.1, sb.2, o.items, o.pos⟩

/-- The zero constant emitted for a supported local type (the match arms
of `declare_locals`, source lines 174–180); `none` for types with no
valid zero representation. -/
def zeroInstFor : WasmType → Option InstData
  | WasmType.I32 => some (InstData.iconst IrType.I32 0)
  | WasmType.I64 => some (InstData.iconst IrType.I64 0)
  | WasmType.F32 => some (InstData.f32const 0)
  | WasmType.F64 => some (InstData.f64const 0)
  | _ => none

/-- `dfg.value_type(zeroval)` for the zero constants above. -/
def instResultType : InstData → IrType
  | InstData.iconst ty _ => ty
  | InstData.f32const _ => IrType.F32
  | InstData.f64const _ => IrType.F64
  | _ => IrType.I32

/-- The inner `for _ in 0..count` loop of `declare_locals` (source lines
183–189): declare each local with the group's type, bind it to the
shared zero value, label the zero value with the local's index. -/
def declareLocalsLoop : Nat → Builder → Nat → IrType → Nat → Builder × Nat
  | 0, b, _, _, next => (b, next)
  | c + 1, b, zv, ty, next =>
    let b := ((b.declare_var next ty).def_var next zv).set_val_label zv next
    declareLocalsLoop c b zv ty (next + 1)

/-- `declare_locals` (source lines 166–191): materialize the group's
zero constant (failing with `Unsupported` for a type with no zero
representation), then declare and bind `count` locals to it. -/
def declare_locals (b : Builder) (count : Nat) (wasm_type : WasmType) (next_local : Nat) :
    Except WasmError Unit × Builder × Nat :=
  match zeroInstFor wasm_type with
  | none => (Except.error (WasmError.Unsupported "unsupported local type"), b, next_local)
  | some d =>
    let zeroval := (b.emit d).2
    let b := (b.emit d).1
    let ty := instResultType d
    let bn := declareLocalsLoop count b zeroval ty next_local
    (Except.ok (), bn.1, bn.2)

/-- The per-group loop of `parse_local_decls` (source lines 154–158):
set the source location, read one `(count, type)` declaration, declare
the group. -/
def parseLocalDeclsAux : List (Nat × WasmType) → Builder → Nat → Nat →
    Except WasmError Unit × Builder × Nat × Nat
  | [], b, p, next => (Except.ok (), b, p, next)
  | (c, t) :: rest, b, p, next =>
    let b := b.set_srcloc p
    match declare_locals b c t next with
    | (Except.error e, b1, next1) => (Except.error e, b1, p + 1, next1)
    | (Except.ok _, b1, next1) => parseLocalDeclsAux rest b1 (p + 1) next1

/-- `parse_local_decls` (source lines 145–161): read the declaration
count (consuming one reader position), then the groups. -/
def parse_local_decls (decls : List (Nat × WasmType)) (b : Builder) (p : Nat)
    (num_params : Nat) : Except WasmError Unit × Builder × Nat × Nat :=
  parseLocalDeclsAux decls b (p + 1) num_params

/-- The body of the `for i in 0..sig_len` loop of
`declare_wasm_parameters` (source lines 120–137), recursing over the
remaining parameters with their signature index. -/
def declareWasmParamsAux : List AbiParam → Nat → Builder → Nat → Builder × Nat
  | [], _, b, next => (b, next)
  | pa :: rest, i, b, next =>
    let bn :=
      if pa.purpose = ArgumentPurpose.Normal then
        (((b.declare_var next pa.value_type)).def_var next (b.ebbParamValue 0 i), next + 1)
      else (b, next)
    let b2 :=
      if pa.purpose = ArgumentPurpose.VMContext then
        bn.1.set_val_label (bn.1.ebbParamValue 0 i) get_vmctx_value_label
      else bn.1
    declareWasmParamsAux rest (i + 1) b2 bn.2

/-- `declare_wasm_parameters` (source lines 117–140): create a local for
every normal-purpose signature parameter, bound to the corresponding
entry-block parameter value; attach the `vmctx` value label to a
`VMContext` parameter.  Returns the number of locals declared. -/
def declare_wasm_parameters (b : Builder) (_entry_block : Nat) : Builder × Nat :=
  declareWasmParamsAux b.sig.params 0 b 0

/-- `FuncTranslator` (source lines 23–26): the reusable driver with its
retained scratch translation state (the builder context is cleared by
`FunctionBuilder::new` on every call and carries no observable state, so
it is not modelled as data). -/
structure FuncTranslator where
  state : TranslationState
deriving DecidableEq, Repr

/-- `FuncTranslator::new`. -/
def FuncTranslator.new : FuncTranslator :=
  ⟨TranslationState.new⟩

/-- The entry-block setup phase of `translate_from_reader` (source lines
87–98): fresh builder, source location at the function start, entry
block with one parameter per signature parameter, switch to it, seal it
immediately, declare the parameter locals.  Returns the builder and the
number of parameter locals. -/
def setupEntry (sig : Signature) (off : Nat) : Builder × Nat :=
  let b := Builder.new sig
  let b := b.set_srcloc off
  let entry_block := (b.create_ebb).2
  let b := (b.create_ebb).1
  let b := b.append_ebb_params_for_function_params entry_block
  let b := b.switch_to_block entry_block
  let b := b.seal_block entry_block
  declare_wasm_parameters b entry_block

/-- Result of a whole `translate_from_reader` call: outcome, populated
builder (the IR function), and the translator with its retained state. -/
structure TransOut where
  res : Except WasmError Unit
  b : Builder
  tr : FuncTranslator
deriving Repr

/-- The exit-block setup of `translate_from_reader` (source lines
102–103): create the exit block and give it one block parameter per
function return value. -/
def setupExit (sig : Signature) (off : Nat) : Builder :=
  let b := (setupEntry sig off).1
  let exit_block := (b.create_ebb).2
  let b := (b.create_ebb).1
  b.append_ebb_params_for_function_returns exit_block

/-- `translate_from_reader` (source lines 70–111): entry setup, exit
block with one parameter per return value, state initialization, local
declarations, function body.  The input function is represented by its
signature (it must be empty apart from signature and name); the reader
is represented by the declaration list, the operator items, and the
starting byte offset. -/
def translate_from_reader (tr : FuncTranslator) (sig : Signature) (off : Nat)
    (decls : List (Nat × WasmType)) (items : List ReadItem) (mode : ReturnMode) :
    TransOut :=
  let num_params := (setupEntry sig off).2
  let exit_block := ((setupEntry sig off).1.create_ebb).2
  let b := setupExit sig off
  let st := TranslationState.initState b.sig exit_block
  match parse_local_decls decls b off num_params with
  | (Except.error e, b1, _, _) => ⟨Except.error e, b1, { tr with state := st }⟩
  | (Except.ok _, b1, p1, _) =>
    let o := parse_function_body items p1 st b1 mode
    ⟨o.res, o.b, { tr with state := o.st }⟩

/-! ### Basic lemmas about the builder primitives -/

/-- A non-bottom control frame targets blocks other than the entry block
(id 0) and the exit block (id 1), within the function. -/
def innerOkB (len : Nat) (f : Frame) : Bool :=
  decide (2 ≤ f.branch_dest) && decide (f.branch_dest < len)
    && decide (2 ≤ f.dest) && decide (f.dest < len)

/-- Control-frame stack well-formedness: the bottom frame is the
function frame (both destinations the exit block, id 1), and every frame
above it targets fresh blocks (ids at least 2, within the function). -/
def framesOkB (len : Nat) : List Frame → Bool
  | [] => true
  | [f] => decide (f = ⟨1, 1⟩)
  | f :: f2 :: rest => innerOkB len f && framesOkB len (f2 :: rest)

/-- The invariant the driver maintains across the decode-dispatch loop:
the control-frame stack is well-formed over the current block count, the
entry and exit blocks exist, the insertion point is in range and (while
frames remain) is not the exit block, the exit block has no instructions
yet, and the entry block is sealed with no predecessors. -/
def DriverInv (st : TranslationState) (b : Builder) : Prop :=
  framesOkB b.blocks.length st.control_stack = true ∧
  2 ≤ b.blocks.length ∧
  b.cur < b.blocks.length ∧
  (st.control_stack ≠ [] → b.cur ≠ 1) ∧
  (b.blocks.getD 1 default).insts = [] ∧
  (b.blocks.getD 0 default).preds = [] ∧
  (b.blocks.getD 0 default).sealed = true

/-- Builder extension relation: the step from `b` to `b2` keeps every
existing block, adds no instruction to the exit block, adds no
predecessor to the entry block, and keeps the entry block sealed. -/
structure BExt (b b2 : Builder) : Prop where
  len : b.blocks.length ≤ b2.blocks.length
  exit_insts : (b2.blocks.getD 1 default).insts = (b.blocks.getD 1 default).insts
  entry_preds : (b2.blocks.getD 0 default).preds = (b.blocks.getD 0 default).preds
  entry_sealed : (b.blocks.getD 0 default).sealed = true →
    (b2.blocks.getD 0 default).sealed = true

/-- Concrete two-block (entry and exit) builder in the state the driver
reaches just before the decode-dispatch loop, used to instantiate the
loop theorems. -/
def simpleBuilder : Builder :=
  ⟨⟨[], []⟩, [⟨[], [], true, []⟩, ⟨[], [], false, []⟩], 0, 0, 0, [], [], [], []⟩

def simpleState : TranslationState := ⟨[], [⟨1, 1⟩], true⟩

/-- Operators that push a control frame (structuring operators). -/
def isPush : Op → Bool
  | Op.block => true
  | Op.loop_ => true
  | Op.if_ => true
  | _ => false

/-- Operators that neither push nor pop a control frame. -/
def isFlat (op : Op) : Bool :=
  !isPush op && !(op == Op.end_)

/-- Well-formed structural nesting: a sequence of operators in which
every pushed frame is popped by its matching `end` terminator. -/
inductive Bal : List Op → Prop
  | nil : Bal []
  | flat (op : Op) (rest : List Op) : isFlat op = true → Bal rest → Bal (op :: rest)
  | nest (op : Op) (inner rest : List Op) : isPush op = true → Bal inner → Bal rest →
      Bal (op :: inner ++ Op.end_ :: rest)

/-- Pair each element of a type list with consecutive indices starting
at `n` (the dense index space of locals and of block-parameter value
ids). -/
def indexFrom (n : Nat) : List IrType → List (Nat × IrType)
  | [] => []
  | t :: ts => (n, t) :: indexFrom (n + 1) ts

/-- The value types of the normal-purpose signature parameters, in
signature order — exactly the parameters exposed as locals. -/
def normalTypes (ps : List AbiParam) : List IrType :=
  (ps.filter (fun p => p.purpose = ArgumentPurpose.Normal)).map (fun p => p.value_type)

/-- The value-label associations recorded by `declare_wasm_parameters`
for the special-purpose `vmctx` parameters, starting at signature index
`i`. -/
def vmctxLabels (b : Builder) : List AbiParam → Nat → List (Nat × Nat)
  | [], _ => []
  | p :: rest, i =>
    (if p.purpose = ArgumentPurpose.VMContext
      then [(b.ebbParamValue 0 i, get_vmctx_value_label)] else [])
      ++ vmctxLabels b rest (i + 1)

/-- The builder state of `translate_from_reader` just before
`declare_wasm_parameters` (source lines 87–96): fresh builder, source
location set, entry block created with the signature's parameters,
switched to and sealed. -/
def preParams (sig : Signature) (off : Nat) : Builder :=
  let b := Builder.new sig
  let b := b.set_srcloc off
  let entry_block := (b.create_ebb).2
  let b := (b.create_ebb).1
  let b := b.append_ebb_params_for_function_params entry_block
  let b := b.switch_to_block entry_block
  b.seal_block entry_block

/-- The IR value type a supported declared-local type maps to. -/
def localIrType : WasmType → IrType
  | WasmType.I32 => IrType.I32
  | WasmType.I64 => IrType.I64
  | WasmType.F32 => IrType.F32
  | WasmType.F64 => IrType.F64
  | _ => IrType.I32

/-- The declared-local types expanded group by group:
each `(run_length, type)` group contributes `run_length` copies of its
IR type, in declaration order. -/
def expandedTypes (decls : List (Nat × WasmType)) : List IrType :=
  (decls.map (fun ct => List.replicate ct.1 (localIrType ct.2))).flatten

/-- Concrete signature for the C7 witness: a normal i32 parameter, a
`vmctx` parameter, and a normal f32 parameter. -/
def c7Sig : Signature :=
  ⟨[⟨IrType.I32, ArgumentPurpose.Normal⟩, ⟨IrType.I64, ArgumentPurpose.VMContext⟩,
    ⟨IrType.F32, ArgumentPurpose.Normal⟩], []⟩

/-- Extension relation for the local-declaration pass: block structure
unchanged except instructions appended to the current block. -/
structure LExt (b b2 : Builder) : Prop where
  len : b2.blocks.length = b.blocks.length
  cur : b2.cur = b.cur
  preds : ∀ j, (b2.blocks.getD j default).preds = (b.blocks.getD j default).preds
  sealed : ∀ j, (b2.blocks.getD j default).sealed = (b.blocks.getD j default).sealed
  params : ∀ j, (b2.blocks.getD j default).params = (b.blocks.getD j default).params
  insts_ne : ∀ j, j ≠ b.cur →
    (b2.blocks.getD j default).insts = (b.blocks.getD j default).insts

theorem updateBlock_length (l : List EbbData) (i : Nat) (f : EbbData → EbbData) :
    (updateBlock l i f).length = l.length := by
  induction l generalizing i with
  | nil => rfl
  | cons e rest ih =>
    cases i with
    | zero => rfl
    | succ j => simpa [updateBlock] using ih j

theorem updateBlock_getD_ne (l : List EbbData) (i j : Nat) (f : EbbData → EbbData)
    (h : j ≠ i) : (updateBlock l i f).getD j default = l.getD j default := by
  induction l generalizing i j with
  | nil => rfl
  | cons e rest ih =>
    cases i with
    | zero =>
      cases j with
      | zero => exact absurd rfl h
      | succ j2 => rfl
    | succ i2 =>
      cases j with
      | zero => rfl
      | succ j2 =>
        simp only [updateBlock, List.getD_cons_succ]
        exact ih i2 j2 (fun hc => h (by simp [hc]))

theorem updateBlock_getD_eq (l : List EbbData) (i : Nat) (f : EbbData → EbbData)
    (h : i < l.length) :
    (updateBlock l i f).getD i default = f (l.getD i default) := by
  induction l generalizing i with
  | nil => simp at h
  | cons e rest ih =>
    cases i with
    | zero => rfl
    | succ j =>
      simp only [updateBlock, List.getD_cons_succ]
      exact ih j (by simpa using h)

theorem getD_append_lt (l l2 : List EbbData) (i : Nat) (h : i < l.length) :
    ((l ++ l2).getD i default) = l.getD i default := by
  induction l generalizing i with
  | nil => simp at h
  | cons e rest ih =>
    cases i with
    | zero => rfl
    | succ j =>
      simp only [List.cons_append, List.getD_cons_succ]
      exact ih j (by simpa using h)


theorem getD_append_singleton_default (l : List EbbData) (j : Nat) :
    (l ++ [(default : EbbData)]).getD j default = l.getD j default := by
  induction l generalizing j with
  | nil => cases j <;> rfl
  | cons e rest ih =>
    cases j with
    | zero => rfl
    | succ j2 => simpa using ih j2

theorem updateBlock_getD_proj {α : Type} (g : EbbData → α) (l : List EbbData) (i : Nat)
    (f : EbbData → EbbData) (hf : ∀ e, g (f e) = g e) (j : Nat) :
    g ((updateBlock l i f).getD j default) = g (l.getD j default) := by
  by_cases hj : j < l.length
  · by_cases hji : j = i
    · subst hji
      rw [updateBlock_getD_eq l j f hj, hf]
    · rw [updateBlock_getD_ne l i j f hji]
  · rw [List.getD_eq_default, List.getD_eq_default]
    · omega
    · rw [updateBlock_length]; omega

/-! Field-preservation lemmas for the builder primitives. -/

theorem emitNoRes_blocks_length (b : Builder) (d : InstData) :
    (b.emitNoRes d).blocks.length = b.blocks.length := by
  simp [Builder.emitNoRes, updateBlock_length]

theorem emitNoRes_cur (b : Builder) (d : InstData) : (b.emitNoRes d).cur = b.cur := rfl

theorem emitNoRes_getD_preds (b : Builder) (d : InstData) (j : Nat) :
    ((b.emitNoRes d).blocks.getD j default).preds = (b.blocks.getD j default).preds := by
  simp only [Builder.emitNoRes]
  apply updateBlock_getD_proj EbbData.preds
  intro e
  rfl

theorem emitNoRes_getD_sealed (b : Builder) (d : InstData) (j : Nat) :
    ((b.emitNoRes d).blocks.getD j default).sealed = (b.blocks.getD j default).sealed := by
  simp only [Builder.emitNoRes]
  apply updateBlock_getD_proj EbbData.sealed
  intro e
  rfl

theorem emitNoRes_getD_params (b : Builder) (d : InstData) (j : Nat) :
    ((b.emitNoRes d).blocks.getD j default).params = (b.blocks.getD j default).params := by
  simp only [Builder.emitNoRes]
  apply updateBlock_getD_proj EbbData.params
  intro e
  rfl

theorem emitNoRes_getD_insts_ne (b : Builder) (d : InstData) (j : Nat) (hj : j ≠ b.cur) :
    ((b.emitNoRes d).blocks.getD j default).insts = (b.blocks.getD j default).insts := by
  simp only [Builder.emitNoRes]
  rw [updateBlock_getD_ne _ _ _ _ hj]

theorem emitNoRes_getD_insts_self (b : Builder) (d : InstData) (hc : b.cur < b.blocks.length) :
    ((b.emitNoRes d).blocks.getD b.cur default).insts
      = (b.blocks.getD b.cur default).insts ++ [⟨d, b.srcloc, none⟩] := by
  simp only [Builder.emitNoRes]
  rw [updateBlock_getD_eq _ _ _ hc]

theorem emitJump_blocks_length (b : Builder) (dest : Nat) :
    (b.emitJump dest).blocks.length = b.blocks.length := by
  simp [Builder.emitJump, updateBlock_length, emitNoRes_blocks_length]

theorem emitJump_cur (b : Builder) (dest : Nat) : (b.emitJump dest).cur = b.cur := rfl

theorem emitJump_getD_preds_ne (b : Builder) (dest j : Nat) (hj : j ≠ dest) :
    ((b.emitJump dest).blocks.getD j default).preds = (b.blocks.getD j default).preds := by
  simp only [Builder.emitJump]
  rw [updateBlock_getD_ne _ _ _ _ hj, emitNoRes_getD_preds]

theorem emitJump_getD_sealed (b : Builder) (dest j : Nat) :
    ((b.emitJump dest).blocks.getD j default).sealed = (b.blocks.getD j default).sealed := by
  simp only [Builder.emitJump]
  rw [show ∀ l i f hf, _ = _ from fun l i f hf => updateBlock_getD_proj EbbData.sealed l i f hf j]
  · exact emitNoRes_getD_sealed b _ j
  · intro e
    rfl

theorem emitJump_getD_params (b : Builder) (dest j : Nat) :
    ((b.emitJump dest).blocks.getD j default).params = (b.blocks.getD j default).params := by
  simp only [Builder.emitJump]
  trans ((b.emitNoRes (InstData.jump dest)).blocks.getD j default).params
  · apply updateBlock_getD_proj EbbData.params
    intro e
    rfl
  · exact emitNoRes_getD_params b _ j

theorem emitJump_getD_insts_ne (b : Builder) (dest j : Nat) (hj : j ≠ b.cur) :
    ((b.emitJump dest).blocks.getD j default).insts = (b.blocks.getD j default).insts := by
  simp only [Builder.emitJump]
  trans ((b.emitNoRes (InstData.jump dest)).blocks.getD j default).insts
  · apply updateBlock_getD_proj EbbData.insts
    intro e
    rfl
  · exact emitNoRes_getD_insts_ne b _ j hj

theorem emitJump_getD_preds_self (b : Builder) (dest : Nat) (hd : dest < b.blocks.length) :
    ((b.emitJump dest).blocks.getD dest default).preds
      = (b.blocks.getD dest default).preds ++ [b.cur] := by
  simp only [Builder.emitJump]
  rw [updateBlock_getD_eq _ _ _ (by rw [emitNoRes_blocks_length]; exact hd)]
  rw [show (b.emitNoRes (InstData.jump dest)).cur = b.cur from rfl]
  rw [show ∀ e : EbbData, ({ e with preds := e.preds ++ [b.cur] } : EbbData).preds
        = e.preds ++ [b.cur] from fun e => rfl]
  rw [emitNoRes_getD_preds]

theorem emitBrz_blocks_length (b : Builder) (dest : Nat) :
    (b.emitBrz dest).blocks.length = b.blocks.length := by
  simp [Builder.emitBrz, updateBlock_length, emitNoRes_blocks_length]

theorem emitBrz_cur (b : Builder) (dest : Nat) : (b.emitBrz dest).cur = b.cur := rfl

theorem emitBrz_getD_preds_ne (b : Builder) (dest j : Nat) (hj : j ≠ dest) :
    ((b.emitBrz dest).blocks.getD j default).preds = (b.blocks.getD j default).preds := by
  simp only [Builder.emitBrz]
  rw [updateBlock_getD_ne _ _ _ _ hj, emitNoRes_getD_preds]

theorem emitBrz_getD_sealed (b : Builder) (dest j : Nat) :
    ((b.emitBrz dest).blocks.getD j default).sealed = (b.blocks.getD j default).sealed := by
  simp only [Builder.emitBrz]
  trans ((b.emitNoRes (InstData.brz dest)).blocks.getD j default).sealed
  · apply updateBlock_getD_proj EbbData.sealed
    intro e
    rfl
  · exact emitNoRes_getD_sealed b _ j

theorem emitBrz_getD_params (b : Builder) (dest j : Nat) :
    ((b.emitBrz dest).blocks.getD j default).params = (b.blocks.getD j default).params := by
  simp only [Builder.emitBrz]
  trans ((b.emitNoRes (InstData.brz dest)).blocks.getD j default).params
  · apply updateBlock_getD_proj EbbData.params
    intro e
    rfl
  · exact emitNoRes_getD_params b _ j

theorem emitBrz_getD_insts_ne (b : Builder) (dest j : Nat) (hj : j ≠ b.cur) :
    ((b.emitBrz dest).blocks.getD j default).insts = (b.blocks.getD j default).insts := by
  simp only [Builder.emitBrz]
  trans ((b.emitNoRes (InstData.brz dest)).blocks.getD j default).insts
  · apply updateBlock_getD_proj EbbData.insts
    intro e
    rfl
  · exact emitNoRes_getD_insts_ne b _ j hj

theorem seal_block_blocks_length (b : Builder) (blk : Nat) :
    (b.seal_block blk).blocks.length = b.blocks.length := by
  simp [Builder.seal_block, updateBlock_length]

theorem seal_block_cur (b : Builder) (blk : Nat) : (b.seal_block blk).cur = b.cur := rfl

theorem seal_block_getD_preds (b : Builder) (blk j : Nat) :
    ((b.seal_block blk).blocks.getD j default).preds = (b.blocks.getD j default).preds := by
  simp only [Builder.seal_block]
  apply updateBlock_getD_proj EbbData.preds
  intro e
  rfl

theorem seal_block_getD_insts (b : Builder) (blk j : Nat) :
    ((b.seal_block blk).blocks.getD j default).insts = (b.blocks.getD j default).insts := by
  simp only [Builder.seal_block]
  apply updateBlock_getD_proj EbbData.insts
  intro e
  rfl

theorem seal_block_getD_params (b : Builder) (blk j : Nat) :
    ((b.seal_block blk).blocks.getD j default).params = (b.blocks.getD j default).params := by
  simp only [Builder.seal_block]
  apply updateBlock_getD_proj EbbData.params
  intro e
  rfl

theorem seal_block_sealed_zero (b : Builder) (blk : Nat)
    (h : (b.blocks.getD 0 default).sealed = true) :
    ((b.seal_block blk).blocks.getD 0 default).sealed = true := by
  by_cases hb : blk = 0
  · subst hb
    by_cases hl : 0 < b.blocks.length
    · simp only [Builder.seal_block]
      rw [updateBlock_getD_eq _ _ _ hl]
    · have hnil : b.blocks = [] := by
        cases hbl : b.blocks with
        | nil => rfl
        | cons x xs => rw [hbl] at hl; simp at hl
      simp only [Builder.seal_block, hnil, updateBlock]
      rw [hnil] at h
      exact h
  · simp only [Builder.seal_block]
    rw [updateBlock_getD_ne _ _ _ _ (Ne.symm hb)]
    exact h

theorem seal_block_getD_sealed_self (b : Builder) (blk : Nat) (hb : blk < b.blocks.length) :
    ((b.seal_block blk).blocks.getD blk default).sealed = true := by
  simp only [Builder.seal_block]
  rw [updateBlock_getD_eq _ _ _ hb]

theorem create_ebb_getD (b : Builder) (j : Nat) :
    ((b.create_ebb).1.blocks.getD j default) = b.blocks.getD j default := by
  simp only [Builder.create_ebb]
  exact getD_append_singleton_default b.blocks j

theorem create_ebb_length (b : Builder) :
    (b.create_ebb).1.blocks.length = b.blocks.length + 1 := by
  simp [Builder.create_ebb]

theorem create_ebb_cur (b : Builder) : (b.create_ebb).1.cur = b.cur := rfl

theorem create_ebb_snd (b : Builder) : (b.create_ebb).2 = b.blocks.length := rfl

/-! ### The driver invariant over the translation state and builder -/

theorem framesOkB_mono {len len2 : Nat} (h : len ≤ len2) :
    ∀ fs, framesOkB len fs = true → framesOkB len2 fs = true := by
  intro fs
  induction fs with
  | nil => simp [framesOkB]
  | cons f rest ih =>
    cases rest with
    | nil => simp [framesOkB]
    | cons f2 r2 =>
      intro hok
      simp only [framesOkB, Bool.and_eq_true] at hok ⊢
      refine ⟨?_, ih hok.2⟩
      simp only [innerOkB, Bool.and_eq_true, decide_eq_true_eq] at hok ⊢
      omega

theorem framesOkB_mem {len : Nat} (hlen : 2 ≤ len) :
    ∀ fs, framesOkB len fs = true →
      ∀ f ∈ fs, f.branch_dest ≠ 0 ∧ f.branch_dest < len ∧ f.dest ≠ 0 ∧ f.dest < len := by
  intro fs
  induction fs with
  | nil => simp
  | cons f rest ih =>
    cases rest with
    | nil =>
      intro hok g hg
      simp only [framesOkB, decide_eq_true_eq] at hok
      simp only [List.mem_singleton] at hg
      subst hg hok
      refine ⟨?_, ?_, ?_, ?_⟩ <;> simp [Frame.branch_dest, Frame.dest] <;> omega
    | cons f2 r2 =>
      intro hok g hg
      simp only [framesOkB, Bool.and_eq_true] at hok
      rcases List.mem_cons.mp hg with hg | hg
      · subst hg
        simp only [innerOkB, Bool.and_eq_true, decide_eq_true_eq] at hok
        omega
      · exact ih hok.2 g hg

theorem framesOkB_cons (len : Nat) (f : Frame) (fs : List Frame) (hfs : fs ≠ [])
    (hin : innerOkB len f = true) (hok : framesOkB len fs = true) :
    framesOkB len (f :: fs) = true := by
  cases fs with
  | nil => exact absurd rfl hfs
  | cons f2 r2 => simp [framesOkB, hin, hok]

theorem framesOkB_tail (len : Nat) (f : Frame) (fs : List Frame)
    (hok : framesOkB len (f :: fs) = true) : framesOkB len fs = true := by
  cases fs with
  | nil => rfl
  | cons f2 r2 =>
    simp only [framesOkB, Bool.and_eq_true] at hok
    exact hok.2

theorem framesOkB_singleton (len : Nat) (f : Frame)
    (hok : framesOkB len [f] = true) : f = ⟨1, 1⟩ := by
  simpa [framesOkB] using hok

theorem framesOkB_head (len : Nat) (f f2 : Frame) (r2 : List Frame)
    (hok : framesOkB len (f :: f2 :: r2) = true) : innerOkB len f = true := by
  simp only [framesOkB, Bool.and_eq_true] at hok
  exact hok.1

theorem traceEv_blocks (b : Builder) (e : Event) : (b.traceEv e).blocks = b.blocks := rfl

theorem traceEv_cur (b : Builder) (e : Event) : (b.traceEv e).cur = b.cur := rfl

theorem set_srcloc_blocks (b : Builder) (p : Nat) : (b.set_srcloc p).blocks = b.blocks := rfl

theorem set_srcloc_cur (b : Builder) (p : Nat) : (b.set_srcloc p).cur = b.cur := rfl

theorem switch_to_block_blocks (b : Builder) (blk : Nat) :
    (b.switch_to_block blk).blocks = b.blocks := rfl

theorem switch_to_block_cur (b : Builder) (blk : Nat) :
    (b.switch_to_block blk).cur = blk := rfl

theorem def_var_blocks (b : Builder) (v val : Nat) : (b.def_var v val).blocks = b.blocks := rfl

theorem def_var_cur (b : Builder) (v val : Nat) : (b.def_var v val).cur = b.cur := rfl

theorem emit_fst_blocks_length (b : Builder) (d : InstData) :
    (b.emit d).1.blocks.length = b.blocks.length := by
  simp [Builder.emit, updateBlock_length]

theorem emit_fst_getD_preds (b : Builder) (d : InstData) (j : Nat) :
    ((b.emit d).1.blocks.getD j default).preds = (b.blocks.getD j default).preds := by
  simp only [Builder.emit]
  apply updateBlock_getD_proj EbbData.preds
  intro e
  rfl

theorem emit_fst_getD_sealed (b : Builder) (d : InstData) (j : Nat) :
    ((b.emit d).1.blocks.getD j default).sealed = (b.blocks.getD j default).sealed := by
  simp only [Builder.emit]
  apply updateBlock_getD_proj EbbData.sealed
  intro e
  rfl

theorem emit_fst_getD_params (b : Builder) (d : InstData) (j : Nat) :
    ((b.emit d).1.blocks.getD j default).params = (b.blocks.getD j default).params := by
  simp only [Builder.emit]
  apply updateBlock_getD_proj EbbData.params
  intro e
  rfl

theorem emit_fst_getD_insts_ne (b : Builder) (d : InstData) (j : Nat) (hj : j ≠ b.cur) :
    ((b.emit d).1.blocks.getD j default).insts = (b.blocks.getD j default).insts := by
  simp only [Builder.emit]
  rw [updateBlock_getD_ne _ _ _ _ hj]

theorem emit_fst_getD_insts_self (b : Builder) (d : InstData) (hc : b.cur < b.blocks.length) :
    ((b.emit d).1.blocks.getD b.cur default).insts
      = (b.blocks.getD b.cur default).insts ++ [⟨d, b.srcloc, some b.next_value⟩] := by
  simp only [Builder.emit]
  rw [updateBlock_getD_eq _ _ _ hc]

theorem emit_fst_cur (b : Builder) (d : InstData) : (b.emit d).1.cur = b.cur := rfl

theorem emit_snd (b : Builder) (d : InstData) : (b.emit d).2 = b.next_value := rfl

theorem BExt.refl (b : Builder) : BExt b b :=
  ⟨Nat.le.refl, rfl, rfl, fun h => h⟩

theorem BExt.trans {a b c : Builder} (h1 : BExt a b) (h2 : BExt b c) : BExt a c :=
  ⟨h1.len.trans h2.len, h2.exit_insts.trans h1.exit_insts,
    h2.entry_preds.trans h1.entry_preds, fun h => h2.entry_sealed (h1.entry_sealed h)⟩

theorem BExt.of_blocks_eq {a b : Builder} (h : b.blocks = a.blocks) : BExt a b := by
  constructor <;> simp [h]

theorem BExt.create (b : Builder) : BExt b (b.create_ebb).1 := by
  constructor
  · rw [create_ebb_length]; omega
  · rw [create_ebb_getD]
  · rw [create_ebb_getD]
  · intro h
    rw [create_ebb_getD]
    exact h

theorem BExt.emitNoRes (b : Builder) (d : InstData) (hc : b.cur ≠ 1) :
    BExt b (b.emitNoRes d) := by
  constructor
  · rw [emitNoRes_blocks_length]
  · exact emitNoRes_getD_insts_ne b d 1 (fun h => hc h.symm)
  · exact emitNoRes_getD_preds b d 0
  · intro h
    rw [emitNoRes_getD_sealed]
    exact h

theorem BExt.emit (b : Builder) (d : InstData) (hc : b.cur ≠ 1) :
    BExt b (b.emit d).1 := by
  constructor
  · rw [emit_fst_blocks_length]
  · exact emit_fst_getD_insts_ne b d 1 (fun h => hc h.symm)
  · exact emit_fst_getD_preds b d 0
  · intro h
    rw [emit_fst_getD_sealed]
    exact h

theorem BExt.emitJump (b : Builder) (dest : Nat) (hc : b.cur ≠ 1) (hd : dest ≠ 0) :
    BExt b (b.emitJump dest) := by
  constructor
  · rw [emitJump_blocks_length]
  · exact emitJump_getD_insts_ne b dest 1 (fun h => hc h.symm)
  · exact emitJump_getD_preds_ne b dest 0 (fun h => hd h.symm)
  · intro h
    rw [emitJump_getD_sealed]
    exact h

theorem BExt.emitBrz (b : Builder) (dest : Nat) (hc : b.cur ≠ 1) (hd : dest ≠ 0) :
    BExt b (b.emitBrz dest) := by
  constructor
  · rw [emitBrz_blocks_length]
  · exact emitBrz_getD_insts_ne b dest 1 (fun h => hc h.symm)
  · exact emitBrz_getD_preds_ne b dest 0 (fun h => hd h.symm)
  · intro h
    rw [emitBrz_getD_sealed]
    exact h

theorem BExt.seal (b : Builder) (blk : Nat) : BExt b (b.seal_block blk) := by
  constructor
  · rw [seal_block_blocks_length]
  · exact seal_block_getD_insts b blk 1
  · exact seal_block_getD_preds b blk 0
  · exact seal_block_sealed_zero b blk

theorem BExt.switch (b : Builder) (blk : Nat) : BExt b (b.switch_to_block blk) :=
  BExt.of_blocks_eq rfl

theorem BExt.traceEv (b : Builder) (e : Event) : BExt b (b.traceEv e) :=
  BExt.of_blocks_eq rfl

theorem BExt.set_srcloc (b : Builder) (p : Nat) : BExt b (b.set_srcloc p) :=
  BExt.of_blocks_eq rfl

theorem BExt.def_var (b : Builder) (v val : Nat) : BExt b (b.def_var v val) :=
  BExt.of_blocks_eq rfl

/-- Re-establish the driver invariant after a builder extension, given
the new frame stack is well formed and the new insertion point is in
range and off the exit block. -/
theorem driverInv_of_ext {st st2 : TranslationState} {b b2 : Builder}
    (h : DriverInv st b) (hext : BExt b b2)
    (hfr : framesOkB b2.blocks.length st2.control_stack = true)
    (hcur : b2.cur < b2.blocks.length)
    (hcur1 : st2.control_stack ≠ [] → b2.cur ≠ 1) :
    DriverInv st2 b2 := by
  obtain ⟨hF, hL, hC, hC1, hEx, hEp, hEs⟩ := h
  exact ⟨hfr, hL.trans hext.len, hcur, hcur1,
    hext.exit_insts.trans hEx, hext.entry_preds.trans hEp, hext.entry_sealed hEs⟩

/-- Invariant preservation for one translated operator, together with
the exit facts available the moment the control stack empties: the
insertion point is the exit block and, if the program point is still
reachable, the exit block has a predecessor. -/
theorem driverInv_translate_operator (op : Op) (st : TranslationState) (b : Builder)
    (hInv : DriverInv st b) (hne : st.control_stack ≠ []) :
    DriverInv (translate_operator op st b).1 (translate_operator op st b).2 ∧
    ((translate_operator op st b).1.control_stack = [] →
      (translate_operator op st b).2.cur = 1 ∧
      ((translate_operator op st b).1.reachable = true →
        ((translate_operator op st b).2.blocks.getD 1 default).preds ≠ [])) := by
  obtain ⟨hF, hL, hC, hC1, hEx, hEp, hEs⟩ := hInv
  have hInv2 : DriverInv st b := ⟨hF, hL, hC, hC1, hEx, hEp, hEs⟩
  have hcur1 : b.cur ≠ 1 := hC1 hne
  cases op with
  | block =>
    simp only [translate_operator]
    constructor
    · apply driverInv_of_ext hInv2 ((BExt.traceEv b _).trans (BExt.create _))
      · apply framesOkB_cons _ _ _ hne
        · simp only [innerOkB, create_ebb_snd, create_ebb_length, traceEv_blocks,
            Bool.and_eq_true, decide_eq_true_eq]
          omega
        · apply framesOkB_mono _ _ hF
          simp only [create_ebb_length, traceEv_blocks]
          omega
      · simp only [create_ebb_cur, create_ebb_length, traceEv_blocks, traceEv_cur]
        omega
      · intro _
        simpa only [create_ebb_cur, traceEv_cur] using hcur1
    · intro hempty
      simp at hempty
  | loop_ =>
    simp only [translate_operator]
    cases hr : st.reachable with
    | false =>
      simp only [hr, Bool.false_eq_true, if_false]
      constructor
      · apply driverInv_of_ext hInv2
          ((((BExt.traceEv b _).trans (BExt.create _)).trans (BExt.create _)).trans
            (BExt.switch _ _))
        · apply framesOkB_cons _ _ _ hne
          · simp only [innerOkB, create_ebb_snd, create_ebb_length, traceEv_blocks,
              switch_to_block_blocks, Bool.and_eq_true, decide_eq_true_eq]
            omega
          · apply framesOkB_mono _ _ hF
            simp only [create_ebb_length, traceEv_blocks, switch_to_block_blocks]
            omega
        · simp only [switch_to_block_cur, switch_to_block_blocks, create_ebb_length,
            create_ebb_snd, traceEv_blocks]
          omega
        · intro _
          simp only [switch_to_block_cur, create_ebb_snd, traceEv_blocks]
          omega
      · intro hempty
        simp at hempty
    | true =>
      simp only [hr, if_true]
      constructor
      · apply driverInv_of_ext hInv2
          (((((BExt.traceEv b _).trans (BExt.create _)).trans (BExt.create _)).trans
            (BExt.emitJump _ _ (by simpa only [create_ebb_cur, traceEv_cur] using hcur1)
              (by simp only [create_ebb_snd, traceEv_blocks]; omega))).trans
            (BExt.switch _ _))
        · apply framesOkB_cons _ _ _ hne
          · simp only [innerOkB, create_ebb_snd, create_ebb_length, traceEv_blocks,
              switch_to_block_blocks, emitJump_blocks_length, Bool.and_eq_true,
              decide_eq_true_eq]
            omega
          · apply framesOkB_mono _ _ hF
            simp only [create_ebb_length, traceEv_blocks, switch_to_block_blocks,
              emitJump_blocks_length]
            omega
        · simp only [switch_to_block_cur, switch_to_block_blocks, emitJump_blocks_length,
            create_ebb_length, create_ebb_snd, traceEv_blocks]
          omega
        · intro _
          simp only [switch_to_block_cur, create_ebb_snd, traceEv_blocks]
          omega
      · intro hempty
        simp at hempty
  | if_ =>
    simp only [translate_operator]
    cases hr : st.reachable with
    | false =>
      simp only [hr, Bool.false_eq_true, if_false]
      constructor
      · apply driverInv_of_ext hInv2
          ((((BExt.traceEv b _).trans (BExt.create _)).trans (BExt.create _)).trans
            ((BExt.switch _ _).trans (BExt.seal _ _)))
        · apply framesOkB_cons _ _ _ hne
          · simp only [innerOkB, create_ebb_snd, create_ebb_length, traceEv_blocks,
              switch_to_block_blocks, seal_block_blocks_length, Bool.and_eq_true,
              decide_eq_true_eq]
            omega
          · apply framesOkB_mono _ _ hF
            simp only [create_ebb_length, traceEv_blocks, switch_to_block_blocks,
              seal_block_blocks_length]
            omega
        · simp only [seal_block_cur, switch_to_block_cur, seal_block_blocks_length,
            switch_to_block_blocks, create_ebb_length, create_ebb_snd, traceEv_blocks]
          omega
        · intro _
          simp only [seal_block_cur, switch_to_block_cur, create_ebb_snd, create_ebb_length,
            traceEv_blocks]
          omega
      · intro hempty
        simp at hempty
    | true =>
      simp only [hr, if_true]
      constructor
      · apply driverInv_of_ext hInv2
          ((((((BExt.traceEv b _).trans (BExt.create _)).trans (BExt.create _)).trans
            (BExt.emitBrz _ _ (by simpa only [create_ebb_cur, traceEv_cur] using hcur1)
              (by simp only [create_ebb_snd, traceEv_blocks]; omega))).trans
            (BExt.emitJump _ _
              (by simp only [emitBrz_cur, create_ebb_cur, traceEv_cur]; exact hcur1)
              (by simp only [create_ebb_snd, create_ebb_length, traceEv_blocks]; omega))).trans
            ((BExt.switch _ _).trans (BExt.seal _ _)))
        · apply framesOkB_cons _ _ _ hne
          · simp only [innerOkB, create_ebb_snd, create_ebb_length, traceEv_blocks,
              switch_to_block_blocks, seal_block_blocks_length, emitJump_blocks_length,
              emitBrz_blocks_length, Bool.and_eq_true, decide_eq_true_eq]
            omega
          · apply framesOkB_mono _ _ hF
            simp only [create_ebb_length, traceEv_blocks, switch_to_block_blocks,
              seal_block_blocks_length, emitJump_blocks_length, emitBrz_blocks_length]
            omega
        · simp only [seal_block_cur, switch_to_block_cur, seal_block_blocks_length,
            switch_to_block_blocks, emitJump_blocks_length, emitBrz_blocks_length,
            create_ebb_length, create_ebb_snd, traceEv_blocks]
          omega
        · intro _
          simp only [seal_block_cur, switch_to_block_cur, create_ebb_snd, create_ebb_length,
            traceEv_blocks]
          omega
      · intro hempty
        simp at hempty
  | end_ =>
    cases hcs : st.control_stack with
    | nil => exact absurd hcs hne
    | cons f rest =>
      rw [hcs] at hF
      cases rest with
      | nil =>
        have hf : f = ⟨1, 1⟩ := framesOkB_singleton _ _ hF
        subst hf
        simp only [translate_operator, hcs]
        cases hr : st.reachable with
        | false =>
          simp only [hr, Bool.false_eq_true, if_false]
          have hext : BExt b (((b.traceEv (Event.evTranslate Op.end_)).switch_to_block
              (Frame.mk 1 1).dest).seal_block (Frame.mk 1 1).dest) :=
            (BExt.traceEv b _).trans ((BExt.switch _ _).trans (BExt.seal _ _))
          refine ⟨driverInv_of_ext hInv2 hext rfl ?_ ?_, ?_⟩
          · simp only [seal_block_blocks_length, switch_to_block_blocks, seal_block_cur,
              switch_to_block_cur, traceEv_blocks]
            omega
          · intro hcne
            exact absurd rfl hcne
          · intro _
            refine ⟨by simp [seal_block_cur, switch_to_block_cur], ?_⟩
            intro hreach
            simp only [Bool.not_eq_true'] at hreach
            intro hpe
            rw [show ∀ l : List Nat, l = [] → l.isEmpty = true from fun l h => by simp [h]]
              at hreach
            · simp at hreach
            · exact hpe
        | true =>
          simp only [hr, if_true]
          have hext : BExt b ((((b.traceEv (Event.evTranslate Op.end_)).emitJump
              (Frame.mk 1 1).dest).switch_to_block (Frame.mk 1 1).dest).seal_block
              (Frame.mk 1 1).dest) := by
            refine ((BExt.traceEv b _).trans (BExt.emitJump _ _ ?_ ?_)).trans
              ((BExt.switch _ _).trans (BExt.seal _ _))
            · simpa only [traceEv_cur] using hcur1
            · simp [Frame.dest]
          refine ⟨driverInv_of_ext hInv2 hext rfl ?_ ?_, ?_⟩
          · simp only [seal_block_blocks_length, switch_to_block_blocks, seal_block_cur,
              switch_to_block_cur, emitJump_blocks_length, traceEv_blocks]
            omega
          · intro hcne
            exact absurd rfl hcne
          · intro _
            refine ⟨by simp [seal_block_cur, switch_to_block_cur], ?_⟩
            intro hreach
            simp only [Bool.not_eq_true'] at hreach
            intro hpe
            rw [show ∀ l : List Nat, l = [] → l.isEmpty = true from fun l h => by simp [h]]
              at hreach
            · simp at hreach
            · exact hpe
      | cons f2 r2 =>
        have hin : innerOkB b.blocks.length f = true := framesOkB_head _ _ _ _ hF
        have htl : framesOkB b.blocks.length (f2 :: r2) = true := framesOkB_tail _ _ _ hF
        simp only [innerOkB, Bool.and_eq_true, decide_eq_true_eq] at hin
        simp only [translate_operator, hcs]
        cases hr : st.reachable with
        | false =>
          simp only [hr, Bool.false_eq_true, if_false]
          have hext : BExt b (((b.traceEv (Event.evTranslate Op.end_)).switch_to_block
              f.dest).seal_block f.dest) :=
            (BExt.traceEv b _).trans ((BExt.switch _ _).trans (BExt.seal _ _))
          refine ⟨driverInv_of_ext hInv2 hext ?_ ?_ ?_, ?_⟩
          · apply framesOkB_mono _ _ htl
            simp only [seal_block_blocks_length, switch_to_block_blocks, traceEv_blocks]
            omega
          · simp only [seal_block_blocks_length, switch_to_block_blocks, seal_block_cur,
              switch_to_block_cur, traceEv_blocks]
            omega
          · intro _
            simp only [seal_block_cur, switch_to_block_cur]
            omega
          · intro hempty
            simp at hempty
        | true =>
          simp only [hr, if_true]
          have hext : BExt b ((((b.traceEv (Event.evTranslate Op.end_)).emitJump
              f.dest).switch_to_block f.dest).seal_block f.dest) := by
            refine ((BExt.traceEv b _).trans (BExt.emitJump _ _ ?_ ?_)).trans
              ((BExt.switch _ _).trans (BExt.seal _ _))
            · simpa only [traceEv_cur] using hcur1
            · omega
          refine ⟨driverInv_of_ext hInv2 hext ?_ ?_ ?_, ?_⟩
          · apply framesOkB_mono _ _ htl
            simp only [seal_block_blocks_length, switch_to_block_blocks,
              emitJump_blocks_length, traceEv_blocks]
            omega
          · simp only [seal_block_blocks_length, switch_to_block_blocks, seal_block_cur,
              switch_to_block_cur, emitJump_blocks_length, traceEv_blocks]
            omega
          · intro _
            simp only [seal_block_cur, switch_to_block_cur]
            omega
          · intro hempty
            simp at hempty
  | br depth =>
    simp only [translate_operator]
    cases hr : st.reachable with
    | false =>
      simp only [hr, Bool.false_eq_true, if_false]
      refine ⟨driverInv_of_ext hInv2 (BExt.traceEv b _) ?_ ?_ ?_, ?_⟩
      · simpa only [traceEv_blocks] using hF
      · simpa only [traceEv_blocks, traceEv_cur] using hC
      · intro _
        simpa only [traceEv_cur] using hcur1
      · intro hempty
        exact absurd hempty hne
    | true =>
      simp only [hr, if_true]
      cases hget : st.control_stack.get? depth with
      | some f =>
        have hmem : f ∈ st.control_stack := List.get?_mem hget
        have hfacts := framesOkB_mem hL _ hF f hmem
        refine ⟨driverInv_of_ext hInv2
          ((BExt.traceEv b _).trans (BExt.emitJump _ _
            (by simpa only [traceEv_cur] using hcur1) hfacts.1)) ?_ ?_ ?_, ?_⟩
        · apply framesOkB_mono _ _ hF
          simp only [emitJump_blocks_length, traceEv_blocks]
          omega
        · simp only [emitJump_blocks_length, emitJump_cur, traceEv_blocks, traceEv_cur]
          omega
        · intro _
          simpa only [emitJump_cur, traceEv_cur] using hcur1
        · intro hempty
          exact absurd hempty hne
      | none =>
        refine ⟨driverInv_of_ext hInv2 (BExt.traceEv b _) ?_ ?_ ?_, ?_⟩
        · simpa only [traceEv_blocks] using hF
        · simpa only [traceEv_blocks, traceEv_cur] using hC
        · intro _
          simpa only [traceEv_cur] using hcur1
        · intro hempty
          exact absurd hempty hne
  | i32const imm =>
    simp only [translate_operator]
    cases hr : st.reachable with
    | false =>
      simp only [hr, Bool.false_eq_true, if_false]
      refine ⟨driverInv_of_ext hInv2 (BExt.traceEv b _) ?_ ?_ ?_, ?_⟩
      · simpa only [traceEv_blocks] using hF
      · simpa only [traceEv_blocks, traceEv_cur] using hC
      · intro _
        simpa only [traceEv_cur] using hcur1
      · intro hempty
        exact absurd hempty hne
    | true =>
      simp only [hr, if_true]
      refine ⟨driverInv_of_ext hInv2
        ((BExt.traceEv b _).trans (BExt.emit _ _
          (by simpa only [traceEv_cur] using hcur1))) ?_ ?_ ?_, ?_⟩
      · simp only [emit_fst_blocks_length, traceEv_blocks]
        exact hF
      · simp only [emit_fst_blocks_length, emit_fst_cur, traceEv_blocks,
          traceEv_cur]
        exact hC
      · intro _
        simpa only [emit_fst_cur, traceEv_cur] using hcur1
      · intro hempty
        exact absurd hempty hne
  | localget i =>
    simp only [translate_operator]
    cases hr : st.reachable with
    | false =>
      simp only [hr, Bool.false_eq_true, if_false]
      refine ⟨driverInv_of_ext hInv2 (BExt.traceEv b _) ?_ ?_ ?_, ?_⟩
      · simpa only [traceEv_blocks] using hF
      · simpa only [traceEv_blocks, traceEv_cur] using hC
      · intro _
        simpa only [traceEv_cur] using hcur1
      · intro hempty
        exact absurd hempty hne
    | true =>
      simp only [hr, if_true]
      refine ⟨driverInv_of_ext hInv2 (BExt.traceEv b _) ?_ ?_ ?_, ?_⟩
      · simpa only [traceEv_blocks] using hF
      · simpa only [traceEv_blocks, traceEv_cur] using hC
      · intro _
        simpa only [traceEv_cur] using hcur1
      · intro hempty
        exact absurd hempty hne
  | localset i =>
    simp only [translate_operator]
    cases hr : st.reachable with
    | false =>
      simp only [hr, Bool.false_eq_true, if_false]
      refine ⟨driverInv_of_ext hInv2 (BExt.traceEv b _) ?_ ?_ ?_, ?_⟩
      · simpa only [traceEv_blocks] using hF
      · simpa only [traceEv_blocks, traceEv_cur] using hC
      · intro _
        simpa only [traceEv_cur] using hcur1
      · intro hempty
        exact absurd hempty hne
    | true =>
      simp only [hr, if_true]
      cases hstk : st.stack with
      | nil =>
        refine ⟨driverInv_of_ext hInv2 (BExt.traceEv b _) ?_ ?_ ?_, ?_⟩
        · simpa only [traceEv_blocks] using hF
        · simpa only [traceEv_blocks, traceEv_cur] using hC
        · intro _
          simpa only [traceEv_cur] using hcur1
        · intro hempty
          exact absurd hempty hne
      | cons v s =>
        refine ⟨driverInv_of_ext hInv2
          ((BExt.traceEv b _).trans (BExt.def_var _ _ _)) ?_ ?_ ?_, ?_⟩
        · simpa only [def_var_blocks, traceEv_blocks] using hF
        · simpa only [def_var_blocks, def_var_cur, traceEv_blocks, traceEv_cur] using hC
        · intro _
          simpa only [def_var_cur, traceEv_cur] using hcur1
        · intro hempty
          exact absurd hempty hne
  | i32add =>
    simp only [translate_operator]
    cases hr : st.reachable with
    | false =>
      simp only [hr, Bool.false_eq_true, if_false]
      refine ⟨driverInv_of_ext hInv2 (BExt.traceEv b _) ?_ ?_ ?_, ?_⟩
      · simpa only [traceEv_blocks] using hF
      · simpa only [traceEv_blocks, traceEv_cur] using hC
      · intro _
        simpa only [traceEv_cur] using hcur1
      · intro hempty
        exact absurd hempty hne
    | true =>
      simp only [hr, if_true]
      cases hstk : st.stack with
      | nil =>
        refine ⟨driverInv_of_ext hInv2 (BExt.traceEv b _) ?_ ?_ ?_, ?_⟩
        · simpa only [traceEv_blocks] using hF
        · simpa only [traceEv_blocks, traceEv_cur] using hC
        · intro _
          simpa only [traceEv_cur] using hcur1
        · intro hempty
          exact absurd hempty hne
      | cons a s =>
        cases s with
        | nil =>
          refine ⟨driverInv_of_ext hInv2 (BExt.traceEv b _) ?_ ?_ ?_, ?_⟩
          · simpa only [traceEv_blocks] using hF
          · simpa only [traceEv_blocks, traceEv_cur] using hC
          · intro _
            simpa only [traceEv_cur] using hcur1
          · intro hempty
            exact absurd hempty hne
        | cons a2 s2 =>
          refine ⟨driverInv_of_ext hInv2
            ((BExt.traceEv b _).trans (BExt.emit _ _
              (by simpa only [traceEv_cur] using hcur1))) ?_ ?_ ?_, ?_⟩
          · simp only [emit_fst_blocks_length, traceEv_blocks]
            exact hF
          · simp only [emit_fst_blocks_length, emit_fst_cur,
              traceEv_blocks, traceEv_cur]
            exact hC
          · intro _
            simpa only [emit_fst_cur, traceEv_cur] using hcur1
          · intro hempty
            exact absurd hempty hne
  | nop =>
    simp only [translate_operator]
    refine ⟨driverInv_of_ext hInv2 (BExt.traceEv b _) ?_ ?_ ?_, ?_⟩
    · simpa only [traceEv_blocks] using hF
    · simpa only [traceEv_blocks, traceEv_cur] using hC
    · intro _
      simpa only [traceEv_cur] using hcur1
    · intro hempty
      exact absurd hempty hne

theorem driverInv_of_eq (st : TranslationState) {b b2 : Builder}
    (hbl : b2.blocks = b.blocks) (hcur : b2.cur = b.cur) (h : DriverInv st b) :
    DriverInv st b2 := by
  obtain ⟨hF, hL, hC, hC1, hEx, hEp, hEs⟩ := h
  exact ⟨by rw [hbl]; exact hF, by rw [hbl]; exact hL, by rw [hbl, hcur]; exact hC,
    fun hne => by rw [hcur]; exact hC1 hne, by rw [hbl]; exact hEx,
    by rw [hbl]; exact hEp, by rw [hbl]; exact hEs⟩

/-- Invariant preservation for one full loop iteration (source location,
before-hook, operator translator, after-hook). -/
theorem driverInv_loopIter (op : Op) (p : Nat) (st : TranslationState) (b : Builder)
    (hInv : DriverInv st b) (hne : st.control_stack ≠ []) :
    DriverInv (loopIter op p st b).1 (loopIter op p st b).2 ∧
    ((loopIter op p st b).1.control_stack = [] →
      (loopIter op p st b).2.cur = 1 ∧
      ((loopIter op p st b).1.reachable = true →
        ((loopIter op p st b).2.blocks.getD 1 default).preds ≠ [])) := by
  have hInv1 : DriverInv st (((b.set_srcloc p)).traceEv (Event.evBefore op)) :=
    driverInv_of_eq st rfl rfl hInv
  have hmain := driverInv_translate_operator op st
    (((b.set_srcloc p)).traceEv (Event.evBefore op)) hInv1 hne
  simp only [loopIter]
  refine ⟨driverInv_of_eq _ rfl rfl hmain.1, ?_⟩
  intro hempty
  have h2 := hmain.2 hempty
  exact ⟨h2.1, fun hr => h2.2 hr⟩

theorem runLoop_empty_control (items : List ReadItem) (p : Nat) (st : TranslationState)
    (b : Builder) (h : st.control_stack = []) :
    runLoop items p st b = ⟨Except.ok (), st, b, items, p⟩ := by
  rw [runLoop.eq_def]
  simp [h]

/-- The driver invariant holds after the decode-dispatch loop, the loop
only reports success with an empty control-frame stack, and on success
(from a state with frames remaining) the insertion point is the exit
block, which has a predecessor whenever the final program point is
reachable. -/
theorem runLoop_inv (items : List ReadItem) (p : Nat) (st : TranslationState) (b : Builder)
    (hInv : DriverInv st b) :
    DriverInv (runLoop items p st b).st (runLoop items p st b).b ∧
    ((runLoop items p st b).res = Except.ok () →
      (runLoop items p st b).st.control_stack = []) ∧
    (st.control_stack ≠ [] → (runLoop items p st b).res = Except.ok () →
      (runLoop items p st b).b.cur = 1 ∧
      ((runLoop items p st b).st.reachable = true →
        ((runLoop items p st b).b.blocks.getD 1 default).preds ≠ [])) := by
  induction items generalizing p st b with
  | nil =>
    by_cases h : st.control_stack = []
    · rw [runLoop_empty_control _ _ _ _ h]
      exact ⟨hInv, fun _ => h, fun hne => absurd h hne⟩
    · rw [runLoop.eq_def]
      simp only [if_neg h]
      refine ⟨driverInv_of_eq st rfl rfl hInv, ?_, ?_⟩
      · intro hok
        exact absurd hok (by simp)
      · intro _ hok
        exact absurd hok (by simp)
  | cons item rest ih =>
    by_cases h : st.control_stack = []
    · rw [runLoop_empty_control _ _ _ _ h]
      exact ⟨hInv, fun _ => h, fun hne => absurd h hne⟩
    · cases item with
      | bad =>
        rw [runLoop.eq_def]
        simp only [if_neg h]
        refine ⟨driverInv_of_eq st rfl rfl hInv, ?_, ?_⟩
        · intro hok
          exact absurd hok (by simp)
        · intro _ hok
          exact absurd hok (by simp)
      | ok op =>
        have hiter := driverInv_loopIter op p st b hInv h
        have hrl : runLoop (ReadItem.ok op :: rest) p st b
            = runLoop rest (p + 1) (loopIter op p st b).1 (loopIter op p st b).2 := by
          rw [runLoop.eq_def]
          simp only [if_neg h]
        rw [hrl]
        by_cases h2 : (loopIter op p st b).1.control_stack = []
        · rw [runLoop_empty_control _ _ _ _ h2]
          have hpost := hiter.2 h2
          exact ⟨hiter.1, fun _ => h2, fun _ _ => hpost⟩
        · have hrest := ih (p + 1) (loopIter op p st b).1 (loopIter op p st b).2 hiter.1
          exact ⟨hrest.1, hrest.2.1, fun _ => hrest.2.2 h2⟩

/-- Behaviour of the finalizer at the state the loop leaves behind: the
insertion point is the exit block, which is empty and (being reachable)
has a predecessor, so exactly the mode-selected return instruction is
appended. -/
theorem finalizeBody_emits (mode : ReturnMode) (st : TranslationState) (b : Builder)
    (hreach : st.reachable = true) (hcur : b.cur = 1)
    (hpred : (b.blocks.getD 1 default).preds ≠ [])
    (hlen : 2 ≤ b.blocks.length)
    (hins : (b.blocks.getD 1 default).insts = []) :
    ((finalizeBody mode st b).2.blocks.getD 1 default).insts
      = [⟨(match mode with
          | ReturnMode.NormalReturns => InstData.ret st.stack
          | ReturnMode.FallthroughReturn => InstData.fallthrough_return st.stack),
          b.srcloc, none⟩] := by
  have hunr : b.is_unreachable = false := by
    cases hp : (b.blocks.getD 1 default).preds with
    | nil => exact absurd hp hpred
    | cons x xs =>
      unfold Builder.is_unreachable
      rw [hcur, hp]
      simp
  have hself : ∀ d : InstData,
      ((b.emitNoRes d).blocks.getD 1 default).insts = [⟨d, b.srcloc, none⟩] := by
    intro d
    have := emitNoRes_getD_insts_self b d (by omega)
    rw [hcur] at this
    rw [this, hins]
    simp
  cases mode with
  | NormalReturns =>
    simp only [finalizeBody, hreach, if_true, hunr, Bool.not_false]
    exact hself _
  | FallthroughReturn =>
    simp only [finalizeBody, hreach, if_true, hunr, Bool.not_false]
    exact hself _

/-- C1: after the decode-dispatch loop exits successfully, if the final
program point is reachable and the exit block has not been terminated
(is pristine), the finalizer synthesizes exactly one return instruction
whose operands are the values remaining on the value stack: the direct
multi-value return under `ReturnMode::NormalReturns`, the
fallthrough-return variant under `ReturnMode::FallthroughReturn`. -/
theorem claim_C1 (items : List ReadItem) (p : Nat) (st : TranslationState) (b : Builder)
    (mode : ReturnMode) (hInv : DriverInv st b) (hne : st.control_stack ≠ [])
    (hok : (runLoop items p st b).res = Except.ok ())
    (hreach : (runLoop items p st b).st.reachable = true)
    (_hpr : (runLoop items p st b).b.is_pristine = true) :
    ((parse_function_body items p st b mode).b.blocks.getD 1 default).insts.map Inst.data
      = [match mode with
         | ReturnMode.NormalReturns => InstData.ret (runLoop items p st b).st.stack
         | ReturnMode.FallthroughReturn =>
             InstData.fallthrough_return (runLoop items p st b).st.stack] := by
  have hloop := runLoop_inv items p st b hInv
  have hpost := hloop.2.2 hne hok
  obtain ⟨hF, hL, hC, hC1, hEx, hEp, hEs⟩ := hloop.1
  have hfin := finalizeBody_emits mode (runLoop items p st b).st (runLoop items p st b).b
    hreach hpost.1 (hpost.2 hreach) hL hEx
  simp only [parse_function_body, hok]
  rw [hfin]
  simp

theorem claim_C1_witness :
    DriverInv simpleState simpleBuilder ∧
    simpleState.control_stack ≠ [] ∧
    (runLoop [ReadItem.ok Op.end_] 0 simpleState simpleBuilder).res = Except.ok () ∧
    (runLoop [ReadItem.ok Op.end_] 0 simpleState simpleBuilder).st.reachable = true ∧
    (runLoop [ReadItem.ok Op.end_] 0 simpleState simpleBuilder).b.is_pristine = true ∧
    ((parse_function_body [ReadItem.ok Op.end_] 0 simpleState simpleBuilder
        ReturnMode.NormalReturns).b.blocks.getD 1 default).insts.map Inst.data
      = [InstData.ret []] :=
  ⟨by unfold DriverInv; decide, by decide, rfl, rfl, rfl,
    claim_C1 [ReadItem.ok Op.end_] 0 simpleState simpleBuilder
      ReturnMode.NormalReturns (by unfold DriverInv; decide) (by decide) rfl rfl rfl⟩

theorem loopIter_control_flat (op : Op) (p : Nat) (st : TranslationState) (b : Builder)
    (hf : isFlat op = true) :
    (loopIter op p st b).1.control_stack = st.control_stack := by
  cases op with
  | block => simp [isFlat, isPush] at hf
  | loop_ => simp [isFlat, isPush] at hf
  | if_ => simp [isFlat, isPush] at hf
  | end_ => simp [isFlat, isPush] at hf
  | br depth =>
    simp only [loopIter, translate_operator]
    cases hr : st.reachable with
    | false => simp [hr, Bool.false_eq_true]
    | true =>
      cases hget : st.control_stack.get? depth <;> simp [hr, hget]
  | i32const imm =>
    simp only [loopIter, translate_operator]
    cases hr : st.reachable with
    | false => simp [hr, Bool.false_eq_true]
    | true => simp [hr]
  | localget i =>
    simp only [loopIter, translate_operator]
    cases hr : st.reachable with
    | false => simp [hr, Bool.false_eq_true]
    | true => simp [hr]
  | localset i =>
    simp only [loopIter, translate_operator]
    cases hr : st.reachable with
    | false => simp [hr, Bool.false_eq_true]
    | true =>
      cases hstk : st.stack <;> simp [hr, hstk]
  | i32add =>
    simp only [loopIter, translate_operator]
    cases hr : st.reachable with
    | false => simp [hr, Bool.false_eq_true]
    | true =>
      cases hstk : st.stack with
      | nil => simp [hr, hstk]
      | cons a s => cases s <;> simp [hr, hstk]
  | nop => simp [loopIter, translate_operator]

theorem loopIter_control_push (op : Op) (p : Nat) (st : TranslationState) (b : Builder)
    (hp : isPush op = true) :
    (loopIter op p st b).1.control_stack.length = st.control_stack.length + 1 := by
  cases op with
  | block => simp [loopIter, translate_operator]
  | loop_ =>
    simp only [loopIter, translate_operator]
    cases hr : st.reachable <;> simp [hr, Bool.false_eq_true]
  | if_ =>
    simp only [loopIter, translate_operator]
    cases hr : st.reachable <;> simp [hr, Bool.false_eq_true]
  | end_ => simp [isPush] at hp
  | br depth => simp [isPush] at hp
  | i32const imm => simp [isPush] at hp
  | localget i => simp [isPush] at hp
  | localset i => simp [isPush] at hp
  | i32add => simp [isPush] at hp
  | nop => simp [isPush] at hp

theorem loopIter_control_end (p : Nat) (st : TranslationState) (b : Builder)
    (f : Frame) (rest : List Frame) (h : st.control_stack = f :: rest) :
    (loopIter Op.end_ p st b).1.control_stack = rest := by
  simp only [loopIter, translate_operator, h]

theorem runLoop_cons_ok (op : Op) (rest : List ReadItem) (p : Nat)
    (st : TranslationState) (b : Builder) (hne : st.control_stack ≠ []) :
    runLoop (ReadItem.ok op :: rest) p st b
      = runLoop rest (p + 1) (loopIter op p st b).1 (loopIter op p st b).2 := by
  rw [runLoop.eq_def]
  simp only [if_neg hne]

/-- Processing a balanced operator sequence consumes exactly that
sequence, whatever follows it, and restores the control-frame depth. -/
theorem runLoop_bal {ops : List Op} (hbal : Bal ops) :
    ∀ (suffix : List ReadItem) (p : Nat) (st : TranslationState) (b : Builder),
      st.control_stack ≠ [] →
      ∃ st2 b2, runLoop (ops.map ReadItem.ok ++ suffix) p st b
          = runLoop suffix (p + ops.length) st2 b2 ∧
        st2.control_stack.length = st.control_stack.length := by
  induction hbal with
  | nil =>
    intro suffix p st b _
    exact ⟨st, b, by simp, rfl⟩
  | flat op rest hf hrest ih =>
    intro suffix p st b hne
    have hstep : runLoop ((op :: rest).map ReadItem.ok ++ suffix) p st b
        = runLoop (rest.map ReadItem.ok ++ suffix) (p + 1)
            (loopIter op p st b).1 (loopIter op p st b).2 := by
      simp only [List.map_cons, List.cons_append]
      exact runLoop_cons_ok _ _ _ _ _ hne
    have hc := loopIter_control_flat op p st b hf
    obtain ⟨st2, b2, heq, hlen⟩ := ih suffix (p + 1)
      (loopIter op p st b).1 (loopIter op p st b).2 (by rw [hc]; exact hne)
    refine ⟨st2, b2, ?_, ?_⟩
    · rw [hstep, heq]
      have h3 : p + 1 + rest.length = p + (op :: rest).length := by
        simp only [List.length_cons]
        omega
      rw [h3]
    · rw [hlen, hc]
  | nest op inner rest hpush hinner hrest ih1 ih2 =>
    intro suffix p st b hne
    have hassoc : (op :: inner ++ Op.end_ :: rest).map ReadItem.ok ++ suffix
        = ReadItem.ok op :: (inner.map ReadItem.ok
            ++ (ReadItem.ok Op.end_ :: (rest.map ReadItem.ok ++ suffix))) := by
      simp [List.map_append]
    have hpl := loopIter_control_push op p st b hpush
    obtain ⟨st2, b2, heq1, hlen1⟩ := ih1
      (ReadItem.ok Op.end_ :: (rest.map ReadItem.ok ++ suffix)) (p + 1)
      (loopIter op p st b).1 (loopIter op p st b).2
      (by intro hc; rw [hc] at hpl; simp at hpl)
    have hne2 : st2.control_stack ≠ [] := by
      intro hc
      rw [hc] at hlen1
      rw [hpl] at hlen1
      simp at hlen1
    obtain ⟨f, rest2, hsc⟩ : ∃ f rest2, st2.control_stack = f :: rest2 := by
      cases hsc : st2.control_stack with
      | nil => exact absurd hsc hne2
      | cons f r2 => exact ⟨f, r2, rfl⟩
    have hend := loopIter_control_end (p + 1 + inner.length) st2 b2 f rest2 hsc
    have hlen2 : rest2.length = st.control_stack.length := by
      have : st2.control_stack.length = rest2.length + 1 := by rw [hsc]; simp
      rw [this, hpl] at hlen1
      omega
    have hne3 : rest2 ≠ [] := by
      intro hc
      rw [hc] at hlen2
      simp at hlen2
      exact hne (List.length_eq_zero.mp hlen2.symm)
    obtain ⟨st3, b3, heq2, hlen3⟩ := ih2 suffix (p + 1 + inner.length + 1)
      (loopIter Op.end_ (p + 1 + inner.length) st2 b2).1
      (loopIter Op.end_ (p + 1 + inner.length) st2 b2).2
      (by rw [hend]; exact hne3)
    refine ⟨st3, b3, ?_, ?_⟩
    · rw [hassoc, runLoop_cons_ok _ _ _ _ _ hne, heq1,
        runLoop_cons_ok _ _ _ _ _ hne2, heq2]
      have h3 : p + 1 + inner.length + 1 + rest.length
          = p + (op :: inner ++ Op.end_ :: rest).length := by
        simp only [List.length_cons, List.length_append]
        omega
      rw [h3]
    · rw [hlen3, hend, hlen2]

/-- C2: for any input whose structural nesting of block/loop/conditional
constructs is well-formed, the decode-dispatch loop terminates
successfully with an empty control-frame stack, consuming exactly the
balanced body and its terminating `end` — whatever bytes follow are left
unread, so termination is decided by frame balance alone, not by any
byte count. -/
theorem claim_C2 (body : List Op) (suffix : List ReadItem) (p : Nat)
    (st : TranslationState) (b : Builder)
    (hbal : Bal body) (hone : st.control_stack.length = 1) :
    ∃ st2 b2,
      runLoop ((body ++ [Op.end_]).map ReadItem.ok ++ suffix) p st b
        = ⟨Except.ok (), st2, b2, suffix, p + body.length + 1⟩ ∧
      st2.control_stack = [] := by
  have hne : st.control_stack ≠ [] := by
    intro hc
    rw [hc] at hone
    simp at hone
  have hsplit : (body ++ [Op.end_]).map ReadItem.ok ++ suffix
      = body.map ReadItem.ok ++ (ReadItem.ok Op.end_ :: suffix) := by
    simp
  obtain ⟨st2, b2, heq, hlen⟩ := runLoop_bal hbal (ReadItem.ok Op.end_ :: suffix) p st b hne
  rw [hone] at hlen
  obtain ⟨f, hsc⟩ : ∃ f, st2.control_stack = [f] := by
    cases hsc : st2.control_stack with
    | nil => rw [hsc] at hlen; simp at hlen
    | cons f r2 =>
      rw [hsc] at hlen
      simp only [List.length_cons] at hlen
      have : r2 = [] := List.length_eq_zero.mp (by omega)
      exact ⟨f, by rw [this]⟩
  have hne2 : st2.control_stack ≠ [] := by
    rw [hsc]
    simp
  have hend := loopIter_control_end (p + body.length) st2 b2 f [] hsc
  refine ⟨(loopIter Op.end_ (p + body.length) st2 b2).1,
    (loopIter Op.end_ (p + body.length) st2 b2).2, ?_, hend⟩
  rw [hsplit, heq, runLoop_cons_ok _ _ _ _ _ hne2,
    runLoop_empty_control _ _ _ _ hend]

theorem claim_C2_witness :
    ∃ st2 b2,
      runLoop (([Op.block, Op.end_] ++ [Op.end_]).map ReadItem.ok ++ [ReadItem.bad]) 0
          simpleState simpleBuilder
        = ⟨Except.ok (), st2, b2, [ReadItem.bad], 0 + [Op.block, Op.end_].length + 1⟩ ∧
      st2.control_stack = [] :=
  claim_C2 [Op.block, Op.end_] [ReadItem.bad] 0 simpleState simpleBuilder
    (Bal.nest Op.block [] [] rfl Bal.nil Bal.nil) rfl

/-- C3 counterexample: with a supported group `(1, i32)` preceding the
unsupported group `(1, v128)`, translation does fail with the
`Unsupported` ("UnsupportedType") error, but at the moment of failure
the entry block already holds the preceding group's zero constant — IR
beyond the entry/exit scaffolding, so the effect of a preceding
local-declaration group remains observable. -/
theorem claim_C3_counterexample :
    (translate_from_reader FuncTranslator.new ⟨[], []⟩ 0
        [(1, WasmType.I32), (1, WasmType.V128)] [] ReturnMode.NormalReturns).res
      = Except.error (WasmError.Unsupported "unsupported local type") ∧
    ((translate_from_reader FuncTranslator.new ⟨[], []⟩ 0
        [(1, WasmType.I32), (1, WasmType.V128)] [] ReturnMode.NormalReturns).b.blocks.getD
        0 default).insts
      = [⟨InstData.iconst IrType.I32 0, 1, some 0⟩] := by
  constructor
  · rfl
  · rfl

/-- C3 (amended): if a declared local group's type has no valid zero
representation, translation fails with the `Unsupported` error, and the
failing group itself (and everything after it) leaves no observable
effect: the builder is exactly the one produced by the preceding groups,
except for the already-recorded source location of the failing
declaration. -/
theorem claim_C3 (c : Nat) (t : WasmType) (rest : List (Nat × WasmType)) (b : Builder)
    (p next : Nat) (hu : zeroInstFor t = none) :
    parseLocalDeclsAux ((c, t) :: rest) b p next
      = (Except.error (WasmError.Unsupported "unsupported local type"),
          b.set_srcloc p, p + 1, next) := by
  simp only [parseLocalDeclsAux, declare_locals, hu]

theorem claim_C3_witness :
    zeroInstFor WasmType.V128 = none ∧
    parseLocalDeclsAux [(3, WasmType.V128)] simpleBuilder 5 0
      = (Except.error (WasmError.Unsupported "unsupported local type"),
          simpleBuilder.set_srcloc 5, 6, 0) :=
  ⟨rfl, claim_C3 3 WasmType.V128 [] simpleBuilder 5 0 rfl⟩

/-- Effect of the inner declaration loop of `declare_locals`: one
variable declaration, one definition to the shared zero value, and one
value label per local index, with everything else untouched. -/
theorem declareLocalsLoop_spec (c : Nat) :
    ∀ (b : Builder) (zv : Nat) (ty : IrType) (next : Nat),
      (declareLocalsLoop c b zv ty next).1.vars
          = b.vars ++ (List.range' next c).map (fun i => (i, ty)) ∧
      (declareLocalsLoop c b zv ty next).1.defs
          = b.defs ++ (List.range' next c).map (fun i => (i, zv)) ∧
      (declareLocalsLoop c b zv ty next).1.val_labels
          = b.val_labels ++ (List.range' next c).map (fun i => (zv, i)) ∧
      (declareLocalsLoop c b zv ty next).1.blocks = b.blocks ∧
      (declareLocalsLoop c b zv ty next).1.cur = b.cur ∧
      (declareLocalsLoop c b zv ty next).1.srcloc = b.srcloc ∧
      (declareLocalsLoop c b zv ty next).1.next_value = b.next_value ∧
      (declareLocalsLoop c b zv ty next).2 = next + c := by
  induction c with
  | zero =>
    intro b zv ty next
    simp [declareLocalsLoop]
  | succ c2 ih =>
    intro b zv ty next
    simp only [declareLocalsLoop]
    obtain ⟨h1, h2, h3, h4, h5, h6, h7, h8⟩ :=
      ih (((b.declare_var next ty).def_var next zv).set_val_label zv next) zv ty (next + 1)
    refine ⟨?_, ?_, ?_, ?_, ?_, ?_, ?_, ?_⟩
    · rw [h1]
      simp [Builder.declare_var, Builder.def_var, Builder.set_val_label, List.range'_succ]
    · rw [h2]
      simp [Builder.declare_var, Builder.def_var, Builder.set_val_label, List.range'_succ]
    · rw [h3]
      simp [Builder.declare_var, Builder.def_var, Builder.set_val_label, List.range'_succ]
    · rw [h4]
      simp [Builder.declare_var, Builder.def_var, Builder.set_val_label]
    · rw [h5]
      simp [Builder.declare_var, Builder.def_var, Builder.set_val_label]
    · rw [h6]
      simp [Builder.declare_var, Builder.def_var, Builder.set_val_label]
    · rw [h7]
      simp [Builder.declare_var, Builder.def_var, Builder.set_val_label]
    · rw [h8]
      omega

/-- C4: for a declared local group of a supported type, the group's
locals are all bound to the single freshly materialized zero value, and
the instruction defining that value is the type's zero representation —
integer constant 0 for i32/i64, the all-zero (+0.0) bit pattern for
f32/f64. -/
theorem claim_C4 (b : Builder) (count : Nat) (t : WasmType) (next : Nat) (d : InstData)
    (hs : zeroInstFor t = some d) (hcur : b.cur < b.blocks.length) :
    (declare_locals b count t next).1 = Except.ok () ∧
    (declare_locals b count t next).2.1.defs
      = b.defs ++ (List.range' next count).map (fun i => (i, b.next_value)) ∧
    ((declare_locals b count t next).2.1.blocks.getD b.cur default).insts
      = (b.blocks.getD b.cur default).insts ++ [⟨d, b.srcloc, some b.next_value⟩] ∧
    (t = WasmType.I32 → d = InstData.iconst IrType.I32 0) ∧
    (t = WasmType.I64 → d = InstData.iconst IrType.I64 0) ∧
    (t = WasmType.F32 → d = InstData.f32const 0) ∧
    (t = WasmType.F64 → d = InstData.f64const 0) := by
  obtain ⟨h1, h2, h3, h4, h5, h6, h7, h8⟩ :=
    declareLocalsLoop_spec count (b.emit d).1 (b.emit d).2 (instResultType d) next
  simp only [declare_locals, hs]
  refine ⟨trivial, ?_, ?_, ?_, ?_, ?_, ?_⟩
  · rw [h2, emit_snd]
    rfl
  · rw [h4]
    have hc2 : (b.emit d).1.cur = b.cur := emit_fst_cur b d
    rw [emit_fst_getD_insts_self b d hcur]
  · intro ht
    subst ht
    simp [zeroInstFor] at hs
    exact hs.symm
  · intro ht
    subst ht
    simp [zeroInstFor] at hs
    exact hs.symm
  · intro ht
    subst ht
    simp [zeroInstFor] at hs
    exact hs.symm
  · intro ht
    subst ht
    simp [zeroInstFor] at hs
    exact hs.symm

theorem claim_C4_witness :
    zeroInstFor WasmType.F32 = some (InstData.f32const 0) ∧
    simpleBuilder.cur < simpleBuilder.blocks.length ∧
    (declare_locals simpleBuilder 2 WasmType.F32 3).1 = Except.ok () ∧
    (declare_locals simpleBuilder 2 WasmType.F32 3).2.1.defs
      = simpleBuilder.defs
        ++ (List.range' 3 2).map (fun i => (i, simpleBuilder.next_value)) ∧
    ((declare_locals simpleBuilder 2 WasmType.F32 3).2.1.blocks.getD
        simpleBuilder.cur default).insts
      = (simpleBuilder.blocks.getD simpleBuilder.cur default).insts
        ++ [⟨InstData.f32const 0, simpleBuilder.srcloc, some simpleBuilder.next_value⟩] := by
  have h := claim_C4 simpleBuilder 2 WasmType.F32 3 (InstData.f32const 0) rfl (by decide)
  exact ⟨rfl, by decide, h.1, h.2.1, h.2.2.1⟩

/-- C10: for a declared local group `(count, type)` of a supported type,
exactly one zero-constant instruction is emitted for the whole group,
all `count` locals are defined to that same single SSA value, and the
debug value label of that shared value is set once per local index in
the group. -/
theorem claim_C10 (b : Builder) (count : Nat) (t : WasmType) (next : Nat) (d : InstData)
    (hs : zeroInstFor t = some d) (hcur : b.cur < b.blocks.length) :
    ((declare_locals b count t next).2.1.blocks.getD b.cur default).insts.length
      = (b.blocks.getD b.cur default).insts.length + 1 ∧
    (declare_locals b count t next).2.1.defs
      = b.defs ++ (List.range' next count).map (fun i => (i, b.next_value)) ∧
    (declare_locals b count t next).2.1.val_labels
      = b.val_labels ++ (List.range' next count).map (fun i => (b.next_value, i)) ∧
    (declare_locals b count t next).2.2 = next + count := by
  obtain ⟨h1, h2, h3, h4, h5, h6, h7, h8⟩ :=
    declareLocalsLoop_spec count (b.emit d).1 (b.emit d).2 (instResultType d) next
  simp only [declare_locals, hs]
  refine ⟨?_, ?_, ?_, ?_⟩
  · rw [h4, emit_fst_getD_insts_self b d hcur]
    simp
  · rw [h2, emit_snd]
    rfl
  · rw [h3, emit_snd]
    rfl
  · exact h8

theorem claim_C10_witness :
    zeroInstFor WasmType.I64 = some (InstData.iconst IrType.I64 0) ∧
    simpleBuilder.cur < simpleBuilder.blocks.length ∧
    ((declare_locals simpleBuilder 3 WasmType.I64 7).2.1.blocks.getD
        simpleBuilder.cur default).insts.length
      = (simpleBuilder.blocks.getD simpleBuilder.cur default).insts.length + 1 ∧
    (declare_locals simpleBuilder 3 WasmType.I64 7).2.1.defs
      = simpleBuilder.defs
        ++ (List.range' 7 3).map (fun i => (i, simpleBuilder.next_value)) ∧
    (declare_locals simpleBuilder 3 WasmType.I64 7).2.1.val_labels
      = simpleBuilder.val_labels
        ++ (List.range' 7 3).map (fun i => (simpleBuilder.next_value, i)) ∧
    (declare_locals simpleBuilder 3 WasmType.I64 7).2.2 = 7 + 3 := by
  have h := claim_C10 simpleBuilder 3 WasmType.I64 7 (InstData.iconst IrType.I64 0) rfl
    (by decide)
  exact ⟨rfl, by decide, h.1, h.2.1, h.2.2.1, h.2.2.2⟩

theorem indexFrom_append (xs ys : List IrType) :
    ∀ n, indexFrom n (xs ++ ys) = indexFrom n xs ++ indexFrom (n + xs.length) ys := by
  induction xs with
  | nil => intro n; simp [indexFrom]
  | cons x rest ih =>
    intro n
    simp only [List.cons_append, indexFrom]
    have h1 : indexFrom (n + 1) (rest.append ys) = indexFrom (n + 1) (rest ++ ys) := rfl
    rw [h1, ih (n + 1)]
    simp only [List.length_cons]
    have h2 : n + 1 + rest.length = n + (rest.length + 1) := by omega
    rw [h2]

theorem indexFrom_getD_fst (ts : List IrType) :
    ∀ n i, i < ts.length →
      ((indexFrom n ts).getD i (0, IrType.I32)).1 = n + i := by
  induction ts with
  | nil => intro n i h; simp at h
  | cons t rest ih =>
    intro n i h
    cases i with
    | zero => simp [indexFrom]
    | succ j =>
      simp only [indexFrom, List.getD_cons_succ]
      rw [ih (n + 1) j (by simpa using h)]
      omega

theorem indexFrom_replicate (ty : IrType) :
    ∀ (c n : Nat), indexFrom n (List.replicate c ty)
      = (List.range' n c).map (fun i => (i, ty)) := by
  intro c
  induction c with
  | zero => intro n; simp [indexFrom]
  | succ c2 ih =>
    intro n
    simp only [List.replicate_succ, indexFrom, List.range'_succ, List.map_cons]
    rw [ih (n + 1)]

/-! Effect of `appendParams` on the builder. -/

theorem appendParams_blocks_length (tys : List IrType) :
    ∀ (b : Builder) (blk : Nat),
      (b.appendParams blk tys).blocks.length = b.blocks.length := by
  induction tys with
  | nil => intro b blk; rfl
  | cons t ts ih =>
    intro b blk
    simp only [Builder.appendParams]
    rw [ih]
    simp [updateBlock_length]

theorem appendParams_cur (tys : List IrType) :
    ∀ (b : Builder) (blk : Nat), (b.appendParams blk tys).cur = b.cur := by
  induction tys with
  | nil => intro b blk; rfl
  | cons t ts ih =>
    intro b blk
    simp only [Builder.appendParams]
    rw [ih]

theorem appendParams_vars (tys : List IrType) :
    ∀ (b : Builder) (blk : Nat), (b.appendParams blk tys).vars = b.vars := by
  induction tys with
  | nil => intro b blk; rfl
  | cons t ts ih =>
    intro b blk
    simp only [Builder.appendParams]
    rw [ih]

theorem appendParams_val_labels (tys : List IrType) :
    ∀ (b : Builder) (blk : Nat), (b.appendParams blk tys).val_labels = b.val_labels := by
  induction tys with
  | nil => intro b blk; rfl
  | cons t ts ih =>
    intro b blk
    simp only [Builder.appendParams]
    rw [ih]

theorem appendParams_sig (tys : List IrType) :
    ∀ (b : Builder) (blk : Nat), (b.appendParams blk tys).sig = b.sig := by
  induction tys with
  | nil => intro b blk; rfl
  | cons t ts ih =>
    intro b blk
    simp only [Builder.appendParams]
    rw [ih]

theorem appendParams_trace (tys : List IrType) :
    ∀ (b : Builder) (blk : Nat), (b.appendParams blk tys).trace = b.trace := by
  induction tys with
  | nil => intro b blk; rfl
  | cons t ts ih =>
    intro b blk
    simp only [Builder.appendParams]
    rw [ih]

theorem appendParams_srcloc (tys : List IrType) :
    ∀ (b : Builder) (blk : Nat), (b.appendParams blk tys).srcloc = b.srcloc := by
  induction tys with
  | nil => intro b blk; rfl
  | cons t ts ih =>
    intro b blk
    simp only [Builder.appendParams]
    rw [ih]

theorem appendParams_next_value (tys : List IrType) :
    ∀ (b : Builder) (blk : Nat),
      (b.appendParams blk tys).next_value = b.next_value + tys.length := by
  induction tys with
  | nil => intro b blk; rfl
  | cons t ts ih =>
    intro b blk
    simp only [Builder.appendParams]
    rw [ih]
    simp only [List.length_cons]
    omega

theorem appendParams_getD_preds (tys : List IrType) :
    ∀ (b : Builder) (blk j : Nat),
      ((b.appendParams blk tys).blocks.getD j default).preds
        = (b.blocks.getD j default).preds := by
  induction tys with
  | nil => intro b blk j; rfl
  | cons t ts ih =>
    intro b blk j
    simp only [Builder.appendParams]
    rw [ih]
    apply updateBlock_getD_proj EbbData.preds
    intro e
    rfl

theorem appendParams_getD_sealed (tys : List IrType) :
    ∀ (b : Builder) (blk j : Nat),
      ((b.appendParams blk tys).blocks.getD j default).sealed
        = (b.blocks.getD j default).sealed := by
  induction tys with
  | nil => intro b blk j; rfl
  | cons t ts ih =>
    intro b blk j
    simp only [Builder.appendParams]
    rw [ih]
    apply updateBlock_getD_proj EbbData.sealed
    intro e
    rfl

theorem appendParams_getD_insts (tys : List IrType) :
    ∀ (b : Builder) (blk j : Nat),
      ((b.appendParams blk tys).blocks.getD j default).insts
        = (b.blocks.getD j default).insts := by
  induction tys with
  | nil => intro b blk j; rfl
  | cons t ts ih =>
    intro b blk j
    simp only [Builder.appendParams]
    rw [ih]
    apply updateBlock_getD_proj EbbData.insts
    intro e
    rfl

theorem appendParams_getD_params_ne (tys : List IrType) :
    ∀ (b : Builder) (blk j : Nat), j ≠ blk →
      ((b.appendParams blk tys).blocks.getD j default).params
        = (b.blocks.getD j default).params := by
  induction tys with
  | nil => intro b blk j _; rfl
  | cons t ts ih =>
    intro b blk j hj
    simp only [Builder.appendParams]
    rw [ih _ _ _ hj, updateBlock_getD_ne _ _ _ _ hj]

theorem appendParams_getD_params_self (tys : List IrType) :
    ∀ (b : Builder) (blk : Nat), blk < b.blocks.length →
      ((b.appendParams blk tys).blocks.getD blk default).params
        = (b.blocks.getD blk default).params ++ indexFrom b.next_value tys := by
  induction tys with
  | nil => intro b blk _; simp [Builder.appendParams, indexFrom]
  | cons t ts ih =>
    intro b blk hb
    simp only [Builder.appendParams]
    rw [ih _ _ (by rw [updateBlock_length]; exact hb),
      updateBlock_getD_eq _ _ _ hb]
    simp only [indexFrom]
    simp

theorem vmctxLabels_congr {b b2 : Builder} (h : b2.blocks = b.blocks) :
    ∀ (ps : List AbiParam) (i : Nat), vmctxLabels b2 ps i = vmctxLabels b ps i := by
  intro ps
  induction ps with
  | nil => intro i; rfl
  | cons p rest ih =>
    intro i
    simp only [vmctxLabels, ih (i + 1), Builder.ebbParamValue, h]

theorem vmctxLabels_mem (b : Builder) (ps : List AbiParam) :
    ∀ (i0 i : Nat), i < ps.length →
      (ps.getD i ⟨IrType.I32, ArgumentPurpose.OtherSpecial⟩).purpose
          = ArgumentPurpose.VMContext →
      (b.ebbParamValue 0 (i0 + i), get_vmctx_value_label) ∈ vmctxLabels b ps i0 := by
  induction ps with
  | nil => intro i0 i h; simp at h
  | cons p rest ih =>
    intro i0 i hlt hp
    cases i with
    | zero =>
      simp only [List.getD_cons_zero] at hp
      simp [vmctxLabels, hp]
    | succ j =>
      simp only [List.getD_cons_succ] at hp
      have hm := ih (i0 + 1) j (by simpa using hlt) hp
      have harith : i0 + 1 + j = i0 + (j + 1) := by omega
      rw [harith] at hm
      simp only [vmctxLabels, List.mem_append]
      right
      exact hm

/-- Effect of `declare_wasm_parameters`'s loop: the builder's blocks are
untouched, one dense local per normal-purpose parameter is declared in
order, the `vmctx` labels are recorded, and the local counter advances
by the number of normal parameters. -/
theorem declareWasmParamsAux_spec (ps : List AbiParam) :
    ∀ (i : Nat) (b : Builder) (next : Nat),
      (declareWasmParamsAux ps i b next).1.blocks = b.blocks ∧
      (declareWasmParamsAux ps i b next).1.cur = b.cur ∧
      (declareWasmParamsAux ps i b next).1.srcloc = b.srcloc ∧
      (declareWasmParamsAux ps i b next).1.next_value = b.next_value ∧
      (declareWasmParamsAux ps i b next).1.sig = b.sig ∧
      (declareWasmParamsAux ps i b next).1.trace = b.trace ∧
      (declareWasmParamsAux ps i b next).1.vars
          = b.vars ++ indexFrom next (normalTypes ps) ∧
      (declareWasmParamsAux ps i b next).1.val_labels
          = b.val_labels ++ vmctxLabels b ps i ∧
      (declareWasmParamsAux ps i b next).2 = next + (normalTypes ps).length := by
  induction ps with
  | nil =>
    intro i b next
    simp [declareWasmParamsAux, normalTypes, vmctxLabels, indexFrom]
  | cons p rest ih =>
    intro i b next
    simp only [declareWasmParamsAux]
    cases hp : p.purpose with
    | Normal =>
      simp only [hp, if_true]
      rw [if_neg (show ¬ArgumentPurpose.Normal = ArgumentPurpose.VMContext by decide)]
      have hnt : normalTypes (p :: rest) = p.value_type :: normalTypes rest := by
        simp [normalTypes, hp]
      have hvl : vmctxLabels b (p :: rest) i = vmctxLabels b rest (i + 1) := by
        simp [vmctxLabels, hp]
      obtain ⟨h1, h2, h3, h4, h5, h6, h7, h8, h9⟩ :=
        ih (i + 1) ((b.declare_var next p.value_type).def_var next (b.ebbParamValue 0 i))
          (next + 1)
      refine ⟨?_, ?_, ?_, ?_, ?_, ?_, ?_, ?_, ?_⟩
      · rw [h1]; rfl
      · rw [h2]; rfl
      · rw [h3]; rfl
      · rw [h4]; rfl
      · rw [h5]; rfl
      · rw [h6]; rfl
      · rw [h7, hnt]
        simp [Builder.declare_var, Builder.def_var, indexFrom]
      · rw [h8, hvl]
        have hc : (((b.declare_var next p.value_type)).def_var next
            (b.ebbParamValue 0 i)).blocks = b.blocks := rfl
        rw [vmctxLabels_congr hc]
        simp [Builder.declare_var, Builder.def_var]
      · rw [h9, hnt]
        simp only [List.length_cons]
        omega
    | VMContext =>
      simp only [hp, if_true]
      rw [if_neg (show ¬ArgumentPurpose.VMContext = ArgumentPurpose.Normal by decide)]
      dsimp only
      have hnt : normalTypes (p :: rest) = normalTypes rest := by
        simp [normalTypes, hp]
      have hvl : vmctxLabels b (p :: rest) i
          = (b.ebbParamValue 0 i, get_vmctx_value_label) :: vmctxLabels b rest (i + 1) := by
        simp [vmctxLabels, hp]
      obtain ⟨h1, h2, h3, h4, h5, h6, h7, h8, h9⟩ :=
        ih (i + 1) (b.set_val_label (b.ebbParamValue 0 i) get_vmctx_value_label) next
      refine ⟨?_, ?_, ?_, ?_, ?_, ?_, ?_, ?_, ?_⟩
      · rw [h1]; rfl
      · rw [h2]; rfl
      · rw [h3]; rfl
      · rw [h4]; rfl
      · rw [h5]; rfl
      · rw [h6]; rfl
      · rw [h7, hnt]
        rfl
      · rw [h8, hvl]
        have hc : (b.set_val_label (b.ebbParamValue 0 i) get_vmctx_value_label).blocks
            = b.blocks := rfl
        rw [vmctxLabels_congr hc]
        have hu : (b.set_val_label (b.ebbParamValue 0 i) get_vmctx_value_label).val_labels
            = b.val_labels ++ [(b.ebbParamValue 0 i, get_vmctx_value_label)] := rfl
        rw [hu, List.append_assoc]
        rfl
      · rw [h9, hnt]
    | OtherSpecial =>
      rw [if_neg (show ¬ArgumentPurpose.OtherSpecial = ArgumentPurpose.Normal by decide),
        if_neg (show ¬ArgumentPurpose.OtherSpecial = ArgumentPurpose.VMContext by decide)]
      dsimp only

      have hnt : normalTypes (p :: rest) = normalTypes rest := by
        simp [normalTypes, hp]
      have hvl : vmctxLabels b (p :: rest) i = vmctxLabels b rest (i + 1) := by
        simp [vmctxLabels, hp]
      obtain ⟨h1, h2, h3, h4, h5, h6, h7, h8, h9⟩ := ih (i + 1) b next
      exact ⟨h1, h2, h3, h4, h5, h6, by rw [h7, hnt], by rw [h8, hvl], by rw [h9, hnt]⟩

theorem setupEntry_eq (sig : Signature) (off : Nat) :
    setupEntry sig off
      = declareWasmParamsAux (preParams sig off).sig.params 0 (preParams sig off) 0 := rfl

theorem appendParams_full (tys : List IrType) :
    ∀ (b : Builder) (e : EbbData), b.blocks = [e] →
      b.appendParams 0 tys
        = { b with
            blocks := [{ e with params := e.params ++ indexFrom b.next_value tys }],
            next_value := b.next_value + tys.length } := by
  induction tys with
  | nil =>
    intro b e hb
    have h1 : ({ e with params := e.params ++ [] } : EbbData) = e := by
      cases e
      simp
    simp only [Builder.appendParams, indexFrom, List.length_nil, Nat.add_zero, h1]
    rw [← hb]
  | cons t ts ih =>
    intro b e hb
    simp only [Builder.appendParams]
    have hupd : updateBlock b.blocks 0
        (fun e2 => { e2 with params := e2.params ++ [(b.next_value, t)] })
        = [{ e with params := e.params ++ [(b.next_value, t)] }] := by
      rw [hb]
      rfl
    rw [ih _ { e with params := e.params ++ [(b.next_value, t)] } (by rw [hupd])]
    simp only [hupd, List.append_assoc, List.singleton_append, List.length_cons, indexFrom]
    have h2 : b.next_value + 1 + ts.length = b.next_value + (ts.length + 1) := by omega
    rw [h2]

theorem indexFrom_map_snd (tys : List IrType) :
    ∀ n, (indexFrom n tys).map Prod.snd = tys := by
  induction tys with
  | nil => intro n; rfl
  | cons t ts ih =>
    intro n
    simp only [indexFrom, List.map_cons, ih (n + 1)]

theorem appendParams_getD_ne (tys : List IrType) :
    ∀ (b : Builder) (blk j : Nat), j ≠ blk →
      (b.appendParams blk tys).blocks.getD j default = b.blocks.getD j default := by
  induction tys with
  | nil => intro b blk j _; rfl
  | cons t ts ih =>
    intro b blk j hj
    simp only [Builder.appendParams]
    rw [ih _ _ _ hj, updateBlock_getD_ne _ _ _ _ hj]

theorem preParams_eq (sig : Signature) (off : Nat) :
    preParams sig off
      = ⟨sig, [⟨indexFrom 0 (sig.params.map (fun p => p.value_type)), [], true, []⟩],
          0, off, sig.params.length, [], [], [], [Event.evSrcloc off]⟩ := by
  simp only [preParams, Builder.append_ebb_params_for_function_params]
  rw [show (((Builder.new sig).set_srcloc off).create_ebb).2 = 0 from rfl]
  rw [show (((Builder.new sig).set_srcloc off).create_ebb).1.sig = sig from rfl]
  rw [appendParams_full (sig.params.map (fun p => p.value_type))
    (((Builder.new sig).set_srcloc off).create_ebb).1 default rfl]
  rw [show (((Builder.new sig).set_srcloc off).create_ebb).1.next_value = 0 from rfl]
  simp only [Builder.switch_to_block, Builder.seal_block]
  rw [show ((default : EbbData).params) = [] from rfl]
  simp [Builder.new, Builder.set_srcloc, Builder.create_ebb, Builder.traceEv,
    updateBlock, default]

theorem setupEntry_facts (sig : Signature) (off : Nat) :
    (setupEntry sig off).1.blocks
        = [⟨indexFrom 0 (sig.params.map (fun p => p.value_type)), [], true, []⟩] ∧
    (setupEntry sig off).1.cur = 0 ∧
    (setupEntry sig off).1.srcloc = off ∧
    (setupEntry sig off).1.next_value = sig.params.length ∧
    (setupEntry sig off).1.sig = sig ∧
    (setupEntry sig off).1.trace = [Event.evSrcloc off] ∧
    (setupEntry sig off).1.vars = indexFrom 0 (normalTypes sig.params) ∧
    (setupEntry sig off).2 = (normalTypes sig.params).length ∧
    (setupEntry sig off).1.val_labels = vmctxLabels (preParams sig off) sig.params 0 := by
  obtain ⟨h1, h2, h3, h4, h5, h6, h7, h8, h9⟩ :=
    declareWasmParamsAux_spec (preParams sig off).sig.params 0 (preParams sig off) 0
  have hsig : (preParams sig off).sig = sig := by rw [preParams_eq]
  rw [setupEntry_eq]
  refine ⟨?_, ?_, ?_, ?_, ?_, ?_, ?_, ?_, ?_⟩
  · rw [h1, preParams_eq]
  · rw [h2, preParams_eq]
  · rw [h3, preParams_eq]
  · rw [h4, preParams_eq]
  · rw [h5, preParams_eq]
  · rw [h6, preParams_eq]
  · rw [h7, hsig]
    rw [show (preParams sig off).vars = [] from by rw [preParams_eq]]
    simp
  · rw [h9, hsig]
    omega
  · rw [h8, hsig]
    rw [show (preParams sig off).val_labels = [] from by rw [preParams_eq]]
    simp

theorem setupEntry_vmctx_mem (sig : Signature) (off i : Nat) (hi : i < sig.params.length)
    (hp : (sig.params.getD i ⟨IrType.I32, ArgumentPurpose.OtherSpecial⟩).purpose
      = ArgumentPurpose.VMContext) :
    (i, get_vmctx_value_label) ∈ (setupEntry sig off).1.val_labels := by
  rw [(setupEntry_facts sig off).2.2.2.2.2.2.2.2]
  have hm := vmctxLabels_mem (preParams sig off) sig.params 0 i hi hp
  have hv : (preParams sig off).ebbParamValue 0 (0 + i) = i := by
    rw [preParams_eq]
    simp only [Builder.ebbParamValue, List.getD_cons_zero]
    rw [Nat.zero_add, indexFrom_getD_fst _ 0 i (by simpa using hi)]
    omega
  rw [hv] at hm
  exact hm

theorem setupExit_facts (sig : Signature) (off : Nat) :
    (setupExit sig off).blocks.length = 2 ∧
    (setupExit sig off).cur = 0 ∧
    (setupExit sig off).sig = sig ∧
    (setupExit sig off).srcloc = off ∧
    (setupExit sig off).vars = (setupEntry sig off).1.vars ∧
    (setupExit sig off).val_labels = (setupEntry sig off).1.val_labels ∧
    (setupExit sig off).blocks.getD 0 default
        = ⟨indexFrom 0 (sig.params.map (fun p => p.value_type)), [], true, []⟩ ∧
    ((setupExit sig off).blocks.getD 1 default).insts = [] ∧
    ((setupExit sig off).blocks.getD 1 default).params.map Prod.snd
        = sig.returns.map (fun p => p.value_type) := by
  obtain ⟨F1, F2, F3, F4, F5, F6, F7, F8, F9⟩ := setupEntry_facts sig off
  have hb : (setupEntry sig off).1.blocks.length = 1 := by rw [F1]; rfl
  simp only [setupExit, Builder.append_ebb_params_for_function_returns]
  rw [create_ebb_snd, hb]
  rw [show ((setupEntry sig off).1.create_ebb).1.sig = (setupEntry sig off).1.sig from rfl, F5]
  refine ⟨?_, ?_, ?_, ?_, ?_, ?_, ?_, ?_, ?_⟩
  · rw [appendParams_blocks_length, create_ebb_length, hb]
  · rw [appendParams_cur, create_ebb_cur, F2]
  · rw [appendParams_sig]
    rw [show ((setupEntry sig off).1.create_ebb).1.sig = (setupEntry sig off).1.sig from rfl, F5]
  · rw [appendParams_srcloc]
    rw [show ((setupEntry sig off).1.create_ebb).1.srcloc
      = (setupEntry sig off).1.srcloc from rfl, F3]
  · rw [appendParams_vars]
    rfl
  · rw [appendParams_val_labels]
    rfl
  · rw [appendParams_getD_ne _ _ _ _ (by omega), create_ebb_getD, F1]
    rfl
  · rw [appendParams_getD_insts, create_ebb_getD, F1]
    rfl
  · rw [appendParams_getD_params_self _ _ _ (by rw [create_ebb_length, hb]; omega)]
    rw [create_ebb_getD, F1]
    rw [show (([⟨indexFrom 0 (sig.params.map (fun p => p.value_type)), [], true, []⟩] :
        List EbbData).getD 1 default).params = [] from rfl]
    rw [List.nil_append, indexFrom_map_snd]

theorem expandedTypes_cons (c : Nat) (t : WasmType) (rest : List (Nat × WasmType)) :
    expandedTypes ((c, t) :: rest) = List.replicate c (localIrType t) ++ expandedTypes rest := by
  simp [expandedTypes]

theorem localIrType_eq (t : WasmType) (d : InstData) (hs : zeroInstFor t = some d) :
    instResultType d = localIrType t := by
  cases t with
  | I32 =>
    simp only [zeroInstFor, Option.some.injEq] at hs
    rw [← hs]
    rfl
  | I64 =>
    simp only [zeroInstFor, Option.some.injEq] at hs
    rw [← hs]
    rfl
  | F32 =>
    simp only [zeroInstFor, Option.some.injEq] at hs
    rw [← hs]
    rfl
  | F64 =>
    simp only [zeroInstFor, Option.some.injEq] at hs
    rw [← hs]
    rfl
  | V128 => simp [zeroInstFor] at hs
  | AnyRef => simp [zeroInstFor] at hs

/-- Effect of the whole local-declaration pass on the local index space,
when every declared type is supported: success, and one dense local per
expanded declared slot appended after the existing locals. -/
theorem parseLocalDeclsAux_spec (decls : List (Nat × WasmType)) :
    ∀ (b : Builder) (p next : Nat),
      (∀ ct ∈ decls, (zeroInstFor ct.2).isSome = true) →
      (parseLocalDeclsAux decls b p next).1 = Except.ok () ∧
      (parseLocalDeclsAux decls b p next).2.1.vars
        = b.vars ++ indexFrom next (expandedTypes decls) ∧
      ∃ tail, (parseLocalDeclsAux decls b p next).2.1.val_labels = b.val_labels ++ tail := by
  induction decls with
  | nil =>
    intro b p next _
    refine ⟨rfl, by simp [parseLocalDeclsAux, expandedTypes, indexFrom], ⟨[], by simp [parseLocalDeclsAux]⟩⟩
  | cons ct rest ih =>
    intro b p next hsupp
    obtain ⟨c, t⟩ := ct
    obtain ⟨d, hd⟩ := Option.isSome_iff_exists.mp
      (hsupp (c, t) (List.mem_cons_self _ _))
    obtain ⟨L1, L2, L3, L4, L5, L6, L7, L8⟩ :=
      declareLocalsLoop_spec c ((b.set_srcloc p).emit d).1 ((b.set_srcloc p).emit d).2
        (instResultType d) next
    simp only [parseLocalDeclsAux, declare_locals, hd]
    rw [L8]
    obtain ⟨ih1, ih2, ih3⟩ := ih
      (declareLocalsLoop c ((b.set_srcloc p).emit d).1 ((b.set_srcloc p).emit d).2
        (instResultType d) next).1
      (p + 1) (next + c) (fun ct2 h2 => hsupp ct2 (List.mem_cons_of_mem _ h2))
    refine ⟨ih1, ?_, ?_⟩
    · rw [ih2, L1]
      rw [show (((b.set_srcloc p).emit d)).1.vars = b.vars from rfl]
      rw [expandedTypes_cons, indexFrom_append]
      rw [indexFrom_replicate, localIrType_eq t d hd]
      simp [List.append_assoc, List.length_replicate]
    · obtain ⟨tail2, htail2⟩ := ih3
      refine ⟨(List.range' next c).map (fun i => ((((b.set_srcloc p).emit d)).2, i)) ++ tail2, ?_⟩
      rw [htail2, L3]
      rw [show (((b.set_srcloc p).emit d)).1.val_labels = b.val_labels from rfl]
      simp [List.append_assoc]

/-- C7: local indices form one dense sequence, assigned in order — first
one local per normal-purpose signature parameter, in signature order
starting at index 0, then the declared locals in declaration order; a
`VMContext` parameter receives no local index, only the `vmctx` debug
value label on its parameter value. -/
theorem claim_C7 (sig : Signature) (off : Nat) (decls : List (Nat × WasmType))
    (hsupp : ∀ ct ∈ decls, (zeroInstFor ct.2).isSome = true) :
    (parse_local_decls decls (setupExit sig off) off (setupEntry sig off).2).1
        = Except.ok () ∧
    (parse_local_decls decls (setupExit sig off) off (setupEntry sig off).2).2.1.vars
        = indexFrom 0 (normalTypes sig.params ++ expandedTypes decls) ∧
    (∀ i, i < sig.params.length →
      (sig.params.getD i ⟨IrType.I32, ArgumentPurpose.OtherSpecial⟩).purpose
          = ArgumentPurpose.VMContext →
      (i, get_vmctx_value_label)
        ∈ (parse_local_decls decls (setupExit sig off) off
            (setupEntry sig off).2).2.1.val_labels) := by
  obtain ⟨S1, S2, S3⟩ := parseLocalDeclsAux_spec decls (setupExit sig off) (off + 1)
    ((setupEntry sig off).2) hsupp
  obtain ⟨X1, X2, X3, X4, X5, X6, X7, X8, X9⟩ := setupExit_facts sig off
  have F7 := (setupEntry_facts sig off).2.2.2.2.2.2.1
  have F8 := (setupEntry_facts sig off).2.2.2.2.2.2.2.1
  simp only [parse_local_decls]
  refine ⟨S1, ?_, ?_⟩
  · rw [S2, X5, F7, F8, indexFrom_append]
    simp
  · intro i hi hp
    have hm := setupEntry_vmctx_mem sig off i hi hp
    obtain ⟨tail, htail⟩ := S3
    rw [htail, X6]
    exact List.mem_append_left _ hm

theorem claim_C7_witness :
    (∀ ct ∈ [(2, WasmType.I64)], (zeroInstFor ct.2).isSome = true) ∧
    (parse_local_decls [(2, WasmType.I64)] (setupExit c7Sig 0) 0 (setupEntry c7Sig 0).2).1
        = Except.ok () ∧
    (parse_local_decls [(2, WasmType.I64)] (setupExit c7Sig 0) 0
        (setupEntry c7Sig 0).2).2.1.vars
      = indexFrom 0 (normalTypes c7Sig.params ++ expandedTypes [(2, WasmType.I64)]) ∧
    (1, get_vmctx_value_label)
      ∈ (parse_local_decls [(2, WasmType.I64)] (setupExit c7Sig 0) 0
          (setupEntry c7Sig 0).2).2.1.val_labels := by
  have h := claim_C7 c7Sig 0 [(2, WasmType.I64)] (by decide)
  exact ⟨by decide, h.1, h.2.1, h.2.2 1 (by decide) (by decide)⟩

theorem lext_refl (b : Builder) : LExt b b :=
  ⟨rfl, rfl, fun _ => rfl, fun _ => rfl, fun _ => rfl, fun _ _ => rfl⟩

theorem lext_trans {a b c : Builder} (h1 : LExt a b) (h2 : LExt b c) : LExt a c :=
  ⟨h2.len.trans h1.len, h2.cur.trans h1.cur,
    fun j => (h2.preds j).trans (h1.preds j),
    fun j => (h2.sealed j).trans (h1.sealed j),
    fun j => (h2.params j).trans (h1.params j),
    fun j hj => ((h2.insts_ne j (by rw [h1.cur]; exact hj)).trans (h1.insts_ne j hj))⟩

theorem lext_of_blocks_eq {a b : Builder} (hb : b.blocks = a.blocks) (hc : b.cur = a.cur) :
    LExt a b :=
  ⟨by rw [hb], hc, fun j => by rw [hb], fun j => by rw [hb], fun j => by rw [hb],
    fun j _ => by rw [hb]⟩

theorem lext_emit (b : Builder) (d : InstData) : LExt b (b.emit d).1 :=
  ⟨emit_fst_blocks_length b d, emit_fst_cur b d, emit_fst_getD_preds b d,
    emit_fst_getD_sealed b d, emit_fst_getD_params b d, emit_fst_getD_insts_ne b d⟩

theorem lext_declareLocals (b : Builder) (count : Nat) (t : WasmType) (next : Nat) :
    LExt b (declare_locals b count t next).2.1 := by
  cases hz : zeroInstFor t with
  | none =>
    simp only [declare_locals, hz]
    exact lext_refl b
  | some d =>
    simp only [declare_locals, hz]
    obtain ⟨L1, L2, L3, L4, L5, L6, L7, L8⟩ :=
      declareLocalsLoop_spec count (b.emit d).1 (b.emit d).2 (instResultType d) next
    exact lext_trans (lext_emit b d) (lext_of_blocks_eq L4 L5)

theorem lext_parseDecls (decls : List (Nat × WasmType)) :
    ∀ (b : Builder) (p next : Nat), LExt b (parseLocalDeclsAux decls b p next).2.1 := by
  induction decls with
  | nil => intro b p next; exact lext_refl b
  | cons ct rest ih =>
    intro b p next
    obtain ⟨c, t⟩ := ct
    simp only [parseLocalDeclsAux]
    have hsrc : LExt b (b.set_srcloc p) := lext_of_blocks_eq rfl rfl
    have hdl := lext_declareLocals (b.set_srcloc p) c t next
    cases hdec : declare_locals (b.set_srcloc p) c t next with
    | mk r rest2 =>
      obtain ⟨b1, next1⟩ := rest2
      cases r with
      | error e =>
        have h2 : LExt b b1 := by
          have h3 := lext_trans hsrc hdl
          rw [hdec] at h3
          exact h3
        exact h2
      | ok u =>
        have hb1 : LExt b b1 := by
          have h3 := lext_trans hsrc hdl
          rw [hdec] at h3
          exact h3
        exact lext_trans hb1 (ih b1 (p + 1) next1)

/-- The finalizer leaves every block's predecessors, sealing, and
parameters unchanged, and touches no block other than the current one. -/
theorem finalizeBody_getD_preds (mode : ReturnMode) (st : TranslationState) (b : Builder)
    (j : Nat) : ((finalizeBody mode st b).2.blocks.getD j default).preds
      = (b.blocks.getD j default).preds := by
  simp only [finalizeBody]
  cases hr : st.reachable with
  | false => simp [hr, Bool.false_eq_true]
  | true =>
    cases hu : b.is_unreachable with
    | false =>
      cases mode <;> simp only [hr, if_true, hu, Bool.not_false] <;>
        exact emitNoRes_getD_preds _ _ j
    | true => simp [hr, hu]

theorem finalizeBody_getD_sealed (mode : ReturnMode) (st : TranslationState) (b : Builder)
    (j : Nat) : ((finalizeBody mode st b).2.blocks.getD j default).sealed
      = (b.blocks.getD j default).sealed := by
  simp only [finalizeBody]
  cases hr : st.reachable with
  | false => simp [hr, Bool.false_eq_true]
  | true =>
    cases hu : b.is_unreachable with
    | false =>
      cases mode <;> simp only [hr, if_true, hu, Bool.not_false] <;>
        exact emitNoRes_getD_sealed _ _ j
    | true => simp [hr, hu]

theorem finalizeBody_getD_params (mode : ReturnMode) (st : TranslationState) (b : Builder)
    (j : Nat) : ((finalizeBody mode st b).2.blocks.getD j default).params
      = (b.blocks.getD j default).params := by
  simp only [finalizeBody]
  cases hr : st.reachable with
  | false => simp [hr, Bool.false_eq_true]
  | true =>
    cases hu : b.is_unreachable with
    | false =>
      cases mode <;> simp only [hr, if_true, hu, Bool.not_false] <;>
        exact emitNoRes_getD_params _ _ j
    | true => simp [hr, hu]

/-- The operator translator never changes any block's parameter list
(new blocks are created with no parameters). -/
theorem translate_operator_getD_params (op : Op) (st : TranslationState) (b : Builder)
    (j : Nat) : ((translate_operator op st b).2.blocks.getD j default).params
      = (b.blocks.getD j default).params := by
  cases op with
  | block =>
    simp only [translate_operator]
    rw [create_ebb_getD, traceEv_blocks]
  | loop_ =>
    simp only [translate_operator]
    cases hr : st.reachable with
    | false =>
      simp only [hr, Bool.false_eq_true, if_false, switch_to_block_blocks]
      rw [create_ebb_getD, create_ebb_getD, traceEv_blocks]
    | true =>
      simp only [hr, if_true, switch_to_block_blocks]
      rw [emitJump_getD_params, create_ebb_getD, create_ebb_getD, traceEv_blocks]
  | if_ =>
    simp only [translate_operator]
    cases hr : st.reachable with
    | false =>
      simp only [hr, Bool.false_eq_true, if_false]
      rw [seal_block_getD_params, switch_to_block_blocks, create_ebb_getD, create_ebb_getD,
        traceEv_blocks]
    | true =>
      simp only [hr, if_true]
      rw [seal_block_getD_params, switch_to_block_blocks, emitJump_getD_params,
        emitBrz_getD_params, create_ebb_getD, create_ebb_getD, traceEv_blocks]
  | end_ =>
    simp only [translate_operator]
    cases hcs : st.control_stack with
    | nil => rw [traceEv_blocks]
    | cons f rest =>
      cases hr : st.reachable with
      | false =>
        simp only [hr, Bool.false_eq_true, if_false]
        rw [seal_block_getD_params, switch_to_block_blocks, traceEv_blocks]
      | true =>
        simp only [hr, if_true]
        rw [seal_block_getD_params, switch_to_block_blocks, emitJump_getD_params,
          traceEv_blocks]
  | br depth =>
    simp only [translate_operator]
    cases hr : st.reachable with
    | false => simp [hr, Bool.false_eq_true, Builder.traceEv]
    | true =>
      cases hget : st.control_stack.get? depth with
      | some f =>
        simp only [hr, if_true, hget]
        rw [emitJump_getD_params, traceEv_blocks]
      | none => simp [hr, hget, Builder.traceEv]
  | i32const imm =>
    simp only [translate_operator]
    cases hr : st.reachable with
    | false => simp [hr, Bool.false_eq_true, Builder.traceEv]
    | true =>
      simp only [hr, if_true]
      rw [emit_fst_getD_params, traceEv_blocks]
  | localget i =>
    simp only [translate_operator]
    cases hr : st.reachable <;> simp [hr, Bool.false_eq_true, Builder.traceEv]
  | localset i =>
    simp only [translate_operator]
    cases hr : st.reachable with
    | false => simp [hr, Bool.false_eq_true, Builder.traceEv]
    | true => cases hstk : st.stack <;> simp [hr, hstk, Builder.def_var, Builder.traceEv]
  | i32add =>
    simp only [translate_operator]
    cases hr : st.reachable with
    | false => simp [hr, Bool.false_eq_true, Builder.traceEv]
    | true =>
      cases hstk : st.stack with
      | nil => simp [hr, hstk, Builder.traceEv]
      | cons a s =>
        cases s with
        | nil => simp [hr, hstk, Builder.traceEv]
        | cons a2 s2 =>
          simp only [hr, if_true, hstk]
          rw [emit_fst_getD_params, traceEv_blocks]
  | nop => simp [translate_operator, Builder.traceEv]

theorem runLoop_getD_params (items : List ReadItem) :
    ∀ (p : Nat) (st : TranslationState) (b : Builder) (j : Nat),
      ((runLoop items p st b).b.blocks.getD j default).params
        = (b.blocks.getD j default).params := by
  induction items with
  | nil =>
    intro p st b j
    by_cases h : st.control_stack = []
    · rw [runLoop_empty_control _ _ _ _ h]
    · rw [runLoop.eq_def]
      simp only [if_neg h]
      rw [set_srcloc_blocks]
  | cons item rest ih =>
    intro p st b j
    by_cases h : st.control_stack = []
    · rw [runLoop_empty_control _ _ _ _ h]
    · cases item with
      | bad =>
        rw [runLoop.eq_def]
        simp only [if_neg h]
        rw [set_srcloc_blocks]
      | ok op =>
        rw [runLoop_cons_ok _ _ _ _ _ h, ih]
        simp only [loopIter]
        exact translate_operator_getD_params op st ((b.set_srcloc p).traceEv _) j

/-- C5: the entry block is sealed by the driver's setup phase itself —
before any operator is decoded or translated (the setup trace holds
nothing but the initial source-location record) — and across the whole
translation, whatever the input, the entry block never gains a
predecessor and stays sealed. -/
theorem claim_C5 (tr : FuncTranslator) (sig : Signature) (off : Nat)
    (decls : List (Nat × WasmType)) (items : List ReadItem) (mode : ReturnMode) :
    ((setupEntry sig off).1.blocks.getD 0 default).sealed = true ∧
    (setupEntry sig off).1.trace = [Event.evSrcloc off] ∧
    ((translate_from_reader tr sig off decls items mode).b.blocks.getD 0 default).preds
        = [] ∧
    ((translate_from_reader tr sig off decls items mode).b.blocks.getD 0 default).sealed
        = true := by
  obtain ⟨F1, F2, F3, F4, F5, F6, F7, F8, F9⟩ := setupEntry_facts sig off
  obtain ⟨X1, X2, X3, X4, X5, X6, X7, X8, X9⟩ := setupExit_facts sig off
  have hE : ((setupEntry sig off).1.create_ebb).2 = 1 := by
    rw [create_ebb_snd]
    rw [show (setupEntry sig off).1.blocks = [⟨indexFrom 0
      (sig.params.map (fun p => p.value_type)), [], true, []⟩] from F1]
    rfl
  refine ⟨by rw [F1]; rfl, F6, ?_⟩
  simp only [translate_from_reader]
  rcases hdec : parse_local_decls decls (setupExit sig off) off (setupEntry sig off).2
    with ⟨r, b1, p1, n1⟩
  have h0 := lext_parseDecls decls (setupExit sig off) (off + 1) (setupEntry sig off).2
  simp only [parse_local_decls] at hdec
  rw [hdec] at h0
  have hep : (b1.blocks.getD 0 default).preds = [] := by
    rw [h0.preds 0, X7]
  have hes : (b1.blocks.getD 0 default).sealed = true := by
    rw [h0.sealed 0, X7]
  cases r with
  | error e => exact ⟨hep, hes⟩
  | ok u =>
    have hst : TranslationState.initState (setupExit sig off).sig
        ((setupEntry sig off).1.create_ebb).2
        = (⟨[], [⟨1, 1⟩], true⟩ : TranslationState) := by
      simp only [TranslationState.initState, hE]
    rw [hst]
    have hInv1 : DriverInv ⟨[], [⟨1, 1⟩], true⟩ b1 := by
      refine ⟨by simp [framesOkB], ?_, ?_, ?_, ?_, hep, hes⟩
      · rw [h0.len, X1]
      · rw [h0.cur, X2, h0.len, X1]
        omega
      · intro _
        rw [h0.cur, X2]
        omega
      · rw [h0.insts_ne 1 (by rw [X2]; omega), X8]
    have hloop := (runLoop_inv items p1 ⟨[], [⟨1, 1⟩], true⟩ b1 hInv1).1
    obtain ⟨I1, I2, I3, I4, I5, I6, I7⟩ := hloop
    simp only [parse_function_body]
    cases ho : (runLoop items p1 ⟨[], [⟨1, 1⟩], true⟩ b1).res with
    | error e2 => exact ⟨I6, I7⟩
    | ok u2 =>
      refine ⟨?_, ?_⟩
      · rw [finalizeBody_getD_preds]
        exact I6
      · rw [finalizeBody_getD_sealed]
        exact I7

/-- C6: for every signature, the exit block of the translated function
carries exactly one block parameter per declared return value, in the
same order and with the same types — and this holds of the final
function, whatever the body. -/
theorem claim_C6 (tr : FuncTranslator) (sig : Signature) (off : Nat)
    (decls : List (Nat × WasmType)) (items : List ReadItem) (mode : ReturnMode) :
    ((translate_from_reader tr sig off decls items mode).b.blocks.getD 1
        default).params.map Prod.snd
      = sig.returns.map (fun p => p.value_type) := by
  obtain ⟨X1, X2, X3, X4, X5, X6, X7, X8, X9⟩ := setupExit_facts sig off
  simp only [translate_from_reader]
  rcases hdec : parse_local_decls decls (setupExit sig off) off (setupEntry sig off).2
    with ⟨r, b1, p1, n1⟩
  have h0 := lext_parseDecls decls (setupExit sig off) (off + 1) (setupEntry sig off).2
  simp only [parse_local_decls] at hdec
  rw [hdec] at h0
  have hp1 : (b1.blocks.getD 1 default).params.map Prod.snd
      = sig.returns.map (fun p => p.value_type) := by
    rw [h0.params 1, X9]
  cases r with
  | error e => exact hp1
  | ok u =>
    simp only [parse_function_body]
    cases ho : (runLoop items p1 (TranslationState.initState (setupExit sig off).sig
        ((setupEntry sig off).1.create_ebb).2) b1).res with
    | error e2 =>
      rw [runLoop_getD_params]
      exact hp1
    | ok u2 =>
      rw [finalizeBody_getD_params, runLoop_getD_params]
      exact hp1

theorem traceEv_trace (b : Builder) (e : Event) :
    (b.traceEv e).trace = b.trace ++ [e] := rfl

theorem set_srcloc_trace (b : Builder) (p : Nat) :
    (b.set_srcloc p).trace = b.trace ++ [Event.evSrcloc p] := rfl

theorem create_ebb_trace (b : Builder) : (b.create_ebb).1.trace = b.trace := rfl

theorem emitNoRes_trace (b : Builder) (d : InstData) : (b.emitNoRes d).trace = b.trace := rfl

theorem emit_fst_trace (b : Builder) (d : InstData) : (b.emit d).1.trace = b.trace := rfl

theorem emitJump_trace (b : Builder) (dest : Nat) : (b.emitJump dest).trace = b.trace := rfl

theorem emitBrz_trace (b : Builder) (dest : Nat) : (b.emitBrz dest).trace = b.trace := rfl

theorem seal_block_trace (b : Builder) (blk : Nat) : (b.seal_block blk).trace = b.trace := rfl

theorem switch_to_block_trace (b : Builder) (blk : Nat) :
    (b.switch_to_block blk).trace = b.trace := rfl

theorem def_var_trace (b : Builder) (v val : Nat) : (b.def_var v val).trace = b.trace := rfl

/-- The operator translator records exactly its own invocation in the
trace. -/
theorem translate_operator_trace (op : Op) (st : TranslationState) (b : Builder) :
    (translate_operator op st b).2.trace = b.trace ++ [Event.evTranslate op] := by
  cases op with
  | block =>
    simp only [translate_operator]
    rw [create_ebb_trace, traceEv_trace]
  | loop_ =>
    simp only [translate_operator]
    cases hr : st.reachable with
    | false =>
      simp only [hr, Bool.false_eq_true, if_false]
      rw [switch_to_block_trace, create_ebb_trace, create_ebb_trace, traceEv_trace]
    | true =>
      simp only [hr, if_true]
      rw [switch_to_block_trace, emitJump_trace, create_ebb_trace, create_ebb_trace,
        traceEv_trace]
  | if_ =>
    simp only [translate_operator]
    cases hr : st.reachable with
    | false =>
      simp only [hr, Bool.false_eq_true, if_false]
      rw [seal_block_trace, switch_to_block_trace, create_ebb_trace, create_ebb_trace,
        traceEv_trace]
    | true =>
      simp only [hr, if_true]
      rw [seal_block_trace, switch_to_block_trace, emitJump_trace, emitBrz_trace,
        create_ebb_trace, create_ebb_trace, traceEv_trace]
  | end_ =>
    simp only [translate_operator]
    cases hcs : st.control_stack with
    | nil => rw [traceEv_trace]
    | cons f rest =>
      cases hr : st.reachable with
      | false =>
        simp only [hr, Bool.false_eq_true, if_false]
        rw [seal_block_trace, switch_to_block_trace, traceEv_trace]
      | true =>
        simp only [hr, if_true]
        rw [seal_block_trace, switch_to_block_trace, emitJump_trace, traceEv_trace]
  | br depth =>
    simp only [translate_operator]
    cases hr : st.reachable with
    | false => simp [hr, Bool.false_eq_true, traceEv_trace]
    | true =>
      cases hget : st.control_stack.get? depth with
      | some f =>
        simp only [hr, if_true, hget]
        rw [emitJump_trace, traceEv_trace]
      | none => simp [hr, hget, traceEv_trace]
  | i32const imm =>
    simp only [translate_operator]
    cases hr : st.reachable with
    | false => simp [hr, Bool.false_eq_true, traceEv_trace]
    | true =>
      simp only [hr, if_true]
      rw [emit_fst_trace, traceEv_trace]
  | localget i =>
    simp only [translate_operator]
    cases hr : st.reachable <;> simp [hr, Bool.false_eq_true, traceEv_trace]
  | localset i =>
    simp only [translate_operator]
    cases hr : st.reachable with
    | false => simp [hr, Bool.false_eq_true, traceEv_trace]
    | true => cases hstk : st.stack <;> simp [hr, hstk, def_var_trace, traceEv_trace]
  | i32add =>
    simp only [translate_operator]
    cases hr : st.reachable with
    | false => simp [hr, Bool.false_eq_true, traceEv_trace]
    | true =>
      cases hstk : st.stack with
      | nil => simp [hr, hstk, traceEv_trace]
      | cons a s =>
        cases s with
        | nil => simp [hr, hstk, traceEv_trace]
        | cons a2 s2 =>
          simp only [hr, if_true, hstk]
          rw [emit_fst_trace, traceEv_trace]
  | nop =>
    simp only [translate_operator]
    rw [traceEv_trace]

/-- C8: each iteration of the decode-dispatch loop consumes exactly one
operator from the stream and performs, in order: record the current
source location, invoke the environment's before-operator hook, invoke
the operator translator, invoke the after-operator hook; and a decode
failure aborts the whole translation with a `MalformedInput` error
carrying the byte offset. -/
theorem claim_C8 (op : Op) (rest : List ReadItem) (p : Nat) (st : TranslationState)
    (b : Builder) (hne : st.control_stack ≠ []) :
    runLoop (ReadItem.ok op :: rest) p st b
      = runLoop rest (p + 1) (loopIter op p st b).1 (loopIter op p st b).2 ∧
    (loopIter op p st b).2.trace
      = b.trace ++ [Event.evSrcloc p, Event.evBefore op, Event.evTranslate op,
          Event.evAfter op] ∧
    runLoop (ReadItem.bad :: rest) p st b
      = ⟨Except.error (WasmError.MalformedInput p), st, b.set_srcloc p,
          ReadItem.bad :: rest, p⟩ := by
  refine ⟨runLoop_cons_ok op rest p st b hne, ?_, ?_⟩
  · simp only [loopIter]
    rw [traceEv_trace, translate_operator_trace, traceEv_trace, set_srcloc_trace]
    simp [List.append_assoc]
  · rw [runLoop.eq_def]
    simp only [if_neg hne]

theorem claim_C8_witness :
    simpleState.control_stack ≠ [] ∧
    runLoop [ReadItem.ok Op.nop] 0 simpleState simpleBuilder
      = runLoop [] (0 + 1) (loopIter Op.nop 0 simpleState simpleBuilder).1
          (loopIter Op.nop 0 simpleState simpleBuilder).2 ∧
    (loopIter Op.nop 0 simpleState simpleBuilder).2.trace
      = simpleBuilder.trace ++ [Event.evSrcloc 0, Event.evBefore Op.nop,
          Event.evTranslate Op.nop, Event.evAfter Op.nop] ∧
    runLoop [ReadItem.bad] 0 simpleState simpleBuilder
      = ⟨Except.error (WasmError.MalformedInput 0), simpleState,
          simpleBuilder.set_srcloc 0, [ReadItem.bad], 0⟩ := by
  have h := claim_C8 Op.nop [] 0 simpleState simpleBuilder (by decide)
  exact ⟨by decide, h.1, h.2.1, h.2.2⟩

/-- C9: translating function A and then function B with the same reused
driver produces exactly the IR (and outcome) for B that a fresh driver
produces: the retained scratch state is fully reset by
`TranslationState::initialize` (and the builder context by
`FunctionBuilder::new`) at the start of every call, so nothing from a
previous call is observable. -/
theorem claim_C9 (tr : FuncTranslator) (sigA : Signature) (offA : Nat)
    (declsA : List (Nat × WasmType)) (itemsA : List ReadItem) (modeA : ReturnMode)
    (sigB : Signature) (offB : Nat) (declsB : List (Nat × WasmType))
    (itemsB : List ReadItem) (modeB : ReturnMode) :
    (translate_from_reader
        (translate_from_reader tr sigA offA declsA itemsA modeA).tr
        sigB offB declsB itemsB modeB).b
      = (translate_from_reader FuncTranslator.new sigB offB declsB itemsB modeB).b ∧
    (translate_from_reader
        (translate_from_reader tr sigA offA declsA itemsA modeA).tr
        sigB offB declsB itemsB modeB).res
      = (translate_from_reader FuncTranslator.new sigB offB declsB itemsB modeB).res :=
  ⟨rfl, rfl⟩
